import Mathlib

set_option maxRecDepth 10000

/-!
Verification development for the silk-release network-policy compiler.

Source files modelled here:
* `vxlan-policy-agent/planner/planner_linux.go` — policy resolution
  (`getContainerPolicies`), the four JSON-marshal-based sort comparators, and
  `planIPTableRules` / `GetRulesAndChain`.
* `cni-wrapper-plugin/legacynet/netout.go` — the chain-tree builder
  (`defaultNetOutRules`, `Initialize`, `BulkInsertRules`,
  `validateDenyNetworks`, `rateLimitExpiryPeriod`, ...).

External collaborators (the `lib/rules` rule constructors, `ChainNamer`,
`net.ParseCIDR`, `net.SplitHostPort`, the iptables adapter, the garden rule
converter) are modelled as opaque constructors or function parameters, as the
spec's §6 prescribes.
-/
/-! ## Go `encoding/json` string escaping

The planner's sort comparators compare `json.Marshal` outputs with
`strings.Compare`, which is byte-lexicographic on the UTF-8 encodings; since
UTF-8 preserves code-point order, this equals code-point-lexicographic
comparison of the characters, which is how it is modelled here. -/
/-- Lower-case hex digit, as written by Go's json encoder in `\u00xx` escapes. -/
def hexDigit (d : Nat) : Char :=
  if d < 10 then Char.ofNat (48 + d) else Char.ofNat (87 + d)

/-- Inverse of `hexDigit` (used only to prove injectivity of the escaping). -/
def hexVal (c : Char) : Nat :=
  if c.toNat ≤ 57 then c.toNat - 48 else c.toNat - 87

/-- Escape one character the way Go's `encoding/json` encoder (with its default
HTML escaping) does inside a quoted string: `"` and `\` get a backslash escape,
`\n`/`\r`/`\t` their two-character escapes, the remaining control characters a
`\u00xx` escape, `<`, `>`, `&` and U+2028/U+2029 a `\uxxxx` escape, and every
other character is emitted unchanged. -/
def escChar (c : Char) : List Char :=
  if c = '"' then ['\\', '"']
  else if c = '\\' then ['\\', '\\']
  else if c = '\n' then ['\\', 'n']
  else if c = '\r' then ['\\', 'r']
  else if c = '\t' then ['\\', 't']
  else if c.toNat < 32 then ['\\', 'u', '0', '0', hexDigit (c.toNat / 16), hexDigit (c.toNat % 16)]
  else if c = '<' then ['\\', 'u', '0', '0', '3', 'c']
  else if c = '>' then ['\\', 'u', '0', '0', '3', 'e']
  else if c = '&' then ['\\', 'u', '0', '0', '2', '6']
  else if c.toNat = 8232 then ['\\', 'u', '2', '0', '2', '8']
  else if c.toNat = 8233 then ['\\', 'u', '2', '0', '2', '9']
  else [c]

/-- Escape a whole string (as a character list). -/
def jesc (cs : List Char) : List Char := cs.flatMap escChar

/-- Decoder for `jesc` output terminated by an unescaped quote: returns the
decoded characters before the terminating quote and the remainder after it.
Only used to prove that escaped quoted strings are uniquely decodable. -/
def unq : List Char → List Char × List Char
  | [] => ([], [])
  | '"' :: rest => ([], rest)
  | '\\' :: 'u' :: h1 :: h2 :: h3 :: h4 :: rest =>
    let p := unq rest
    (Char.ofNat (((hexVal h1 * 16 + hexVal h2) * 16 + hexVal h3) * 16 + hexVal h4) :: p.1, p.2)
  | '\\' :: 'n' :: rest => let p := unq rest; ('\n' :: p.1, p.2)
  | '\\' :: 'r' :: rest => let p := unq rest; ('\r' :: p.1, p.2)
  | '\\' :: 't' :: rest => let p := unq rest; ('\t' :: p.1, p.2)
  | '\\' :: '"' :: rest => let p := unq rest; ('"' :: p.1, p.2)
  | '\\' :: '\\' :: rest => let p := unq rest; ('\\' :: p.1, p.2)
  | '\\' :: k :: rest => let p := unq rest; (k :: p.1, p.2)
  | ['\\'] => ([], [])
  | c :: rest => let p := unq rest; (c :: p.1, p.2)

/-! ## Decimal integer encoding, as produced by Go for json int fields -/
/-- Decimal digits of `n`, most significant first; `fuel` bounds the recursion. -/
def natCharsAux : Nat → Nat → List Char
  | 0, _ => []
  | fuel + 1, n =>
    if n < 10 then [Nat.digitChar n]
    else natCharsAux fuel (n / 10) ++ [Nat.digitChar (n % 10)]

/-- Decimal representation of a natural number (`n + 1` fuel always suffices). -/
def natChars (n : Nat) : List Char := natCharsAux (n + 1) n

/-- Decimal representation of an integer, with a leading minus sign when
negative — the form Go's json encoder emits for `int` struct fields. -/
def intChars (i : Int) : List Char :=
  if i < 0 then '-' :: natChars (-i).toNat else natChars i.toNat

/-- Evaluate a digit list back to a number (proof tool only). -/
def natVal (ds : List Char) : Nat := ds.foldl (fun a c => a * 10 + (c.toNat - 48)) 0

/-! ## Planner data model (planner_linux.go and the policy-client records it reads)

`container` mirrors the fields of the datastore container record the planner
consumes; `policy` / `egressPolicy` mirror the policy-client records (declared
outside src/, modelled from their use in `getContainerPolicies` and from the
spec's §3 data model). -/
structure container where
  IP : String
  AppID : String
  SpaceID : String
  Purpose : String
  Ports : String
deriving DecidableEq

structure policySource where
  ID : String
  Tag : String
deriving DecidableEq

structure policyPorts where
  Start : Int
  End : Int
deriving DecidableEq

structure policyDestination where
  ID : String
  Protocol : String
  Ports : policyPorts
deriving DecidableEq

structure policy where
  Source : policySource
  Destination : policyDestination
deriving DecidableEq

structure egressSource where
  ID : String
  Type_ : String
deriving DecidableEq

structure ipRange where
  Start : String
  End : String
deriving DecidableEq

structure egressDestination where
  Protocol : String
  IPRanges : List ipRange
  Ports : List policyPorts
  ICMPType : Int
  ICMPCode : Int
deriving DecidableEq

structure egressPolicy where
  Source : egressSource
  AppLifecycle : String
  Destination : egressDestination
deriving DecidableEq

/-- Resolved source mark: struct `source` of planner_linux.go. -/
structure source where
  IP : String
  Tag : String
  GUID : String
deriving DecidableEq

/-- Resolved destination allow: struct `destination` of planner_linux.go. -/
structure destination where
  IP : String
  StartPort : Int
  EndPort : Int
  GUID : String
  SourceGUID : String
  Protocol : String
  SourceTag : String
deriving DecidableEq

/-- Resolved egress rule: struct `egress` of planner_linux.go. -/
structure egress where
  SourceIP : String
  Protocol : String
  IpStart : String
  IpEnd : String
  IcmpType : Int
  IcmpCode : Int
  PortStart : Int
  PortEnd : Int
deriving DecidableEq

/-- Resolved ingress rule: struct `ingress` of planner_linux.go. -/
structure ingress where
  IngressTag : String
  IP : String
  Protocol : String
  Port : Int
deriving DecidableEq

/-! ## json.Marshal output for the four resolved-tuple structs

Keys appear in declared field order, string values are escaped with `escChar`,
int values are rendered in decimal — exactly the bytes `json.Marshal` produces
for these structs (they contain only `string` and `int` fields, so `Marshal`
cannot fail). -/
def marshalSource (s : source) : List Char :=
  "\x7b\"IP\":\"".data ++ (jesc s.IP.data ++ '"' ::
    (",\"Tag\":\"".data ++ (jesc s.Tag.data ++ '"' ::
      (",\"GUID\":\"".data ++ (jesc s.GUID.data ++ '"' :: ['\x7d'])))))

def marshalDestination (d : destination) : List Char :=
  "\x7b\"IP\":\"".data ++ (jesc d.IP.data ++ '"' ::
    (",\"StartPort\":".data ++ (intChars d.StartPort ++ ',' ::
      ("\"EndPort\":".data ++ (intChars d.EndPort ++ ',' ::
        ("\"GUID\":\"".data ++ (jesc d.GUID.data ++ '"' ::
          (",\"SourceGUID\":\"".data ++ (jesc d.SourceGUID.data ++ '"' ::
            (",\"Protocol\":\"".data ++ (jesc d.Protocol.data ++ '"' ::
              (",\"SourceTag\":\"".data ++ (jesc d.SourceTag.data ++ '"' :: ['\x7d'])))))))))))))

def marshalEgress (e : egress) : List Char :=
  "\x7b\"SourceIP\":\"".data ++ (jesc e.SourceIP.data ++ '"' ::
    (",\"Protocol\":\"".data ++ (jesc e.Protocol.data ++ '"' ::
      (",\"IpStart\":\"".data ++ (jesc e.IpStart.data ++ '"' ::
        (",\"IpEnd\":\"".data ++ (jesc e.IpEnd.data ++ '"' ::
          (",\"IcmpType\":".data ++ (intChars e.IcmpType ++ ',' ::
            ("\"IcmpCode\":".data ++ (intChars e.IcmpCode ++ ',' ::
              ("\"PortStart\":".data ++ (intChars e.PortStart ++ ',' ::
                ("\"PortEnd\":".data ++ (intChars e.PortEnd ++ ['\x7d'])))))))))))))))

def marshalIngress (i : ingress) : List Char :=
  "\x7b\"IngressTag\":\"".data ++ (jesc i.IngressTag.data ++ '"' ::
    (",\"IP\":\"".data ++ (jesc i.IP.data ++ '"' ::
      (",\"Protocol\":\"".data ++ (jesc i.Protocol.data ++ '"' ::
        (",\"Port\":".data ++ (intChars i.Port ++ ['\x7d'])))))))

/-! ## The four sort comparators (sourceSlice.Less etc.)

Go's `Less` marshals both elements to json and compares the bytes with
`strings.Compare`; byte order on UTF-8 equals code-point order, so the
comparison is modelled as the lexicographic order on the marshalled
character lists. `sort.Sort` is an unstable sort, but because the marshal
functions are injective the comparator never ties on distinct elements, so
the sorted permutation is unique and `List.insertionSort` computes exactly
the sequence `sort.Sort` produces. -/
def sourceLess (a b : source) : Prop := marshalSource a < marshalSource b

def destinationLess (a b : destination) : Prop := marshalDestination a < marshalDestination b

def egressLess (a b : egress) : Prop := marshalEgress a < marshalEgress b

def ingressLess (a b : ingress) : Prop := marshalIngress a < marshalIngress b

def sourceLe (a b : source) : Prop := marshalSource a ≤ marshalSource b

def destinationLe (a b : destination) : Prop := marshalDestination a ≤ marshalDestination b

def egressLe (a b : egress) : Prop := marshalEgress a ≤ marshalEgress b

def ingressLe (a b : ingress) : Prop := marshalIngress a ≤ marshalIngress b

instance : DecidableRel sourceLess :=
  fun a b => inferInstanceAs (Decidable (marshalSource a < marshalSource b))

instance : DecidableRel destinationLess :=
  fun a b => inferInstanceAs (Decidable (marshalDestination a < marshalDestination b))

instance : DecidableRel egressLess :=
  fun a b => inferInstanceAs (Decidable (marshalEgress a < marshalEgress b))

instance : DecidableRel ingressLess :=
  fun a b => inferInstanceAs (Decidable (marshalIngress a < marshalIngress b))

instance : DecidableRel sourceLe :=
  fun a b => inferInstanceAs (Decidable (marshalSource a ≤ marshalSource b))

instance : DecidableRel destinationLe :=
  fun a b => inferInstanceAs (Decidable (marshalDestination a ≤ marshalDestination b))

instance : DecidableRel egressLe :=
  fun a b => inferInstanceAs (Decidable (marshalEgress a ≤ marshalEgress b))

instance : DecidableRel ingressLe :=
  fun a b => inferInstanceAs (Decidable (marshalIngress a ≤ marshalIngress b))

instance : IsTotal source sourceLe := ⟨fun x y => le_total (marshalSource x) (marshalSource y)⟩

instance : IsTotal destination destinationLe :=
  ⟨fun x y => le_total (marshalDestination x) (marshalDestination y)⟩

instance : IsTotal egress egressLe := ⟨fun x y => le_total (marshalEgress x) (marshalEgress y)⟩

instance : IsTotal ingress ingressLe := ⟨fun x y => le_total (marshalIngress x) (marshalIngress y)⟩

instance : IsTrans source sourceLe := ⟨fun _ _ _ h1 h2 => le_trans h1 h2⟩

instance : IsTrans destination destinationLe := ⟨fun _ _ _ h1 h2 => le_trans h1 h2⟩

instance : IsTrans egress egressLe := ⟨fun _ _ _ h1 h2 => le_trans h1 h2⟩

instance : IsTrans ingress ingressLe := ⟨fun _ _ _ h1 h2 => le_trans h1 h2⟩

def sortSources (l : List source) : List source := List.insertionSort sourceLe l

def sortDestinations (l : List destination) : List destination :=
  List.insertionSort destinationLe l

def sortEgresses (l : List egress) : List egress := List.insertionSort egressLe l

def sortIngresses (l : List ingress) : List ingress := List.insertionSort ingressLe l

/-- Resolved tuple set: struct `containerPolicySet` of planner_linux.go. -/
structure containerPolicySet where
  Source : List source
  Destination : List destination
  Ingress : List ingress
  Egress : List egress
deriving DecidableEq

/-! ## Policy resolution (`getContainerPolicies`)

Failure modes are modelled explicitly: `goErr` is a returned Go `error`
(only the ingress port conversion produces one here), `indexPanic` is the
runtime panic raised by the unchecked `IPRanges[0]` access.  On error Go
returns the partially built set together with the error, and every caller
discards the set, so the model collapses the error case to the error alone. -/
inductive RErr where
  | goErr (msg : String)
  | indexPanic
deriving DecidableEq

/-- Decimal digit test for the Atoi model. -/
def isDigit (c : Char) : Bool := decide (48 ≤ c.toNat ∧ c.toNat ≤ 57)

/-- Model of Go `strconv.Atoi`: optional sign, at least one digit, nothing
else, and the value must fit in a signed 64-bit int. -/
def atoiGo (s : String) : Option Int :=
  let p : Bool × List Char :=
    match s.data with
    | '-' :: rest => (true, rest)
    | '+' :: rest => (false, rest)
    | rest => (false, rest)
  if p.2 = [] then none
  else if p.2.all isDigit then
    let v : Int := if p.1 then -(natVal p.2 : Int) else (natVal p.2 : Int)
    if v < -(2 ^ 63) ∨ 2 ^ 63 - 1 < v then none else some v
  else none

/-- Model of Go `unicode.IsSpace` (the Unicode White_Space property). -/
def goIsSpace (c : Char) : Bool :=
  decide (c.toNat = 9 ∨ c.toNat = 10 ∨ c.toNat = 11 ∨ c.toNat = 12 ∨ c.toNat = 13 ∨
    c.toNat = 32 ∨ c.toNat = 133 ∨ c.toNat = 160 ∨ c.toNat = 5760 ∨
    (8192 ≤ c.toNat ∧ c.toNat ≤ 8202) ∨ c.toNat = 8232 ∨ c.toNat = 8233 ∨
    c.toNat = 8239 ∨ c.toNat = 8287 ∨ c.toNat = 12288)

/-- Model of Go `strings.TrimSpace`. -/
def goTrimSpace (s : String) : String :=
  String.mk (((s.data.dropWhile goIsSpace).reverse.dropWhile goIsSpace).reverse)

/-- Model of Go `strings.Split(s, ",")` (on the character list). -/
def splitComma : List Char → List (List Char)
  | [] => [[]]
  | c :: rest =>
    if c = ',' then [] :: splitComma rest
    else
      match splitComma rest with
      | [] => [[c]]
      | p :: ps => (c :: p) :: ps

/-- Go condition `egressPolicy.Source.ID == container.AppID ||
(egressPolicy.Source.ID == container.SpaceID && egressPolicy.Source.Type == "space") ||
egressPolicy.Source.Type == "default"`. -/
def egressSourceMatches (ep : egressPolicy) (c : container) : Bool :=
  (ep.Source.ID == c.AppID) ||
    (ep.Source.ID == c.SpaceID && ep.Source.Type_ == "space") ||
    (ep.Source.Type_ == "default")

/-- Function `containerPurposeMatchesAppLifecycle` of planner_linux.go. -/
def containerPurposeMatchesAppLifecycle (containerPurpose appLifecycle : String) : Bool :=
  (appLifecycle == "all") || (containerPurpose == "") ||
    (appLifecycle == "running" && (containerPurpose == "task" || containerPurpose == "app")) ||
    (appLifecycle == "staging" && containerPurpose == "staging")

/-- One container's pass over `policies`: the source-match branch (with the
`visited` dedup map keyed by container IP) and the destination-match branch. -/
def srcDestLoop (c : container) :
    List policy → List String → List String × List source × List destination
  | [], visited => (visited, [], [])
  | p :: ps, visited =>
    let step : List String × List source :=
      if c.AppID == p.Source.ID then
        if visited.contains c.IP then (visited, [])
        else (c.IP :: visited, [⟨c.IP, p.Source.Tag, p.Source.ID⟩])
      else (visited, [])
    let dsts : List destination :=
      if c.AppID == p.Destination.ID then
        [⟨c.IP, p.Destination.Ports.Start, p.Destination.Ports.End, p.Destination.ID,
          p.Source.ID, p.Destination.Protocol, p.Source.Tag⟩]
      else []
    let rest := srcDestLoop c ps step.1
    (rest.1, step.2 ++ rest.2.1, dsts ++ rest.2.2)

/-- One container's pass over `egressPolicies`; reading `IPRanges[0]` of a
matching policy with no IP ranges is the unchecked index access, modelled as
`indexPanic`.  An empty `Ports` list leaves start/end at their zero values. -/
def egressLoop (c : container) : List egressPolicy → Except RErr (List egress)
  | [] => .ok []
  | ep :: eps =>
    if egressSourceMatches ep c then
      if containerPurposeMatchesAppLifecycle c.Purpose ep.AppLifecycle then
        match ep.Destination.IPRanges with
        | [] => .error .indexPanic
        | ipr :: _ =>
          let sp : Int × Int :=
            match ep.Destination.Ports with
            | [] => (0, 0)
            | pp :: _ => (pp.Start, pp.End)
          match egressLoop c eps with
          | .error e => .error e
          | .ok rest =>
            .ok (⟨c.IP, ep.Destination.Protocol, ipr.Start, ipr.End,
              ep.Destination.ICMPType, ep.Destination.ICMPCode, sp.1, sp.2⟩ :: rest)
      else egressLoop c eps
    else egressLoop c eps

/-- The ingress pieces loop: split on comma, trim, Atoi; the first failing
piece aborts with the conversion error. -/
def ingressPieces (tag : String) (c : container) :
    List (List Char) → Except RErr (List ingress)
  | [] => .ok []
  | piece :: rest =>
    match atoiGo (goTrimSpace (String.mk piece)) with
    | none =>
      .error (.goErr ("converting container metadata port to int: " ++ String.mk piece))
    | some v =>
      match ingressPieces tag c rest with
      | .error e => .error e
      | .ok others => .ok (⟨tag, c.IP, "tcp", v⟩ :: others)

/-- One container's ingress handling (only reached when
`EnableOverlayIngressRules` is set): skip when `Ports` is empty, otherwise
split/trim/parse each piece. -/
def ingressLoop (tag : String) (c : container) : Except RErr (List ingress) :=
  if c.Ports = "" then .ok []
  else ingressPieces tag c (splitComma c.Ports.data)

/-- The container loop of `getContainerPolicies`, threading the `visited` set
and accumulating the four tuple lists in iteration order. -/
def getContainerPoliciesAux (enabled : Bool) (tag : String) (ps : List policy)
    (eps : List egressPolicy) :
    List container → List String →
      Except RErr (List source × List destination × List egress × List ingress)
  | [], _ => .ok ([], [], [], [])
  | c :: cs, visited =>
    let sd := srcDestLoop c ps visited
    match egressLoop c eps with
    | .error e => .error e
    | .ok es =>
      match (if enabled then ingressLoop tag c else .ok []) with
      | .error e => .error e
      | .ok ins =>
        match getContainerPoliciesAux enabled tag ps eps cs sd.1 with
        | .error e => .error e
        | .ok rest =>
          .ok (sd.2.1 ++ rest.1, sd.2.2 ++ rest.2.1, es ++ rest.2.2.1, ins ++ rest.2.2.2)

/-- Method `getContainerPolicies` of planner_linux.go: run the matching pass
over all containers, then sort each of the four sequences with its
json-marshal comparator. -/
def getContainerPolicies (ps : List policy) (eps : List egressPolicy) (tag : String)
    (cs : List container) (enabled : Bool) : Except RErr containerPolicySet :=
  match getContainerPoliciesAux enabled tag ps eps cs [] with
  | .error e => .error e
  | .ok r =>
    .ok ⟨sortSources r.1, sortDestinations r.2.1, sortIngresses r.2.2.2, sortEgresses r.2.2.1⟩

/-! ## Spec-side descriptions of the matching pass -/
/-- All DestinationAllow tuples container `c` produces from `ps`, one per
destination match, in policy order (no dedup). -/
def destsFor (ps : List policy) (c : container) : List destination :=
  (ps.filter (fun p => c.AppID == p.Destination.ID)).map
    (fun p => ⟨c.IP, p.Destination.Ports.Start, p.Destination.Ports.End, p.Destination.ID,
      p.Source.ID, p.Destination.Protocol, p.Source.Tag⟩)

/-- The egress tuple built for a matching (container, egress-policy) pair:
only the first IP range and the first port range are consumed; an empty port
list leaves the ports at zero. -/
def mkEgress (c : container) (ep : egressPolicy) : egress :=
  ⟨c.IP, ep.Destination.Protocol, (ep.Destination.IPRanges.headD ⟨"", ""⟩).Start,
    (ep.Destination.IPRanges.headD ⟨"", ""⟩).End, ep.Destination.ICMPType,
    ep.Destination.ICMPCode,
    (match ep.Destination.Ports with | [] => 0 | pp :: _ => pp.Start),
    (match ep.Destination.Ports with | [] => 0 | pp :: _ => pp.End)⟩

/-- Go condition under which an (container, egress-policy) pair emits a rule. -/
def egressPairMatches (c : container) (ep : egressPolicy) : Bool :=
  egressSourceMatches ep c && containerPurposeMatchesAppLifecycle c.Purpose ep.AppLifecycle

/-- All EgressRule tuples container `c` produces from `eps`, one per match. -/
def egressFor (eps : List egressPolicy) (c : container) : List egress :=
  (eps.filter (egressPairMatches c)).map (mkEgress c)

/-- All IngressRule tuples container `c` produces (assuming every piece
parses): one per comma-separated port, protocol fixed to "tcp". -/
def ingressFor (tag : String) (c : container) : List ingress :=
  if c.Ports = "" then []
  else (splitComma c.Ports.data).map
    (fun piece => ⟨tag, c.IP, "tcp", (atoiGo (goTrimSpace (String.mk piece))).getD 0⟩)

/-- Every piece of the container's port list parses (or the list is empty). -/
def portsOk (c : container) : Bool :=
  (c.Ports == "") ||
    (splitComma c.Ports.data).all (fun piece => (atoiGo (goTrimSpace (String.mk piece))).isSome)

/-- The SourceMark candidates for an IP, in matching-pass encounter order:
one per (container with that IP, source-matching policy) pair. -/
def sourceCandidates (cs : List container) (ps : List policy) (ip : String) : List source :=
  cs.flatMap (fun c =>
    if c.IP = ip then
      (ps.filter (fun p => c.AppID == p.Source.ID)).map
        (fun p => ⟨ip, p.Source.Tag, p.Source.ID⟩)
    else [])

/-- Reference description of the emitted SourceMarks: one per not-yet-visited
container IP with a source match, carrying the first matching policy's
Tag and its Source.ID as GUID. -/
def marksAccum (ps : List policy) : List container → List String → List source
  | [], _ => []
  | c :: cs, v =>
    match (if v.contains c.IP then none else ps.find? (fun p => c.AppID == p.Source.ID)) with
    | some p => ⟨c.IP, p.Source.Tag, p.Source.ID⟩ :: marksAccum ps cs (c.IP :: v)
    | none => marksAccum ps cs v

/-- A container is safe from the `IPRanges[0]` panic: no matching egress
policy has an empty IP-range list. -/
def noPanicFor (eps : List egressPolicy) (c : container) : Bool :=
  eps.all (fun ep => !(egressPairMatches c ep && ep.Destination.IPRanges.isEmpty))

/-! ## planIPTableRules / GetRulesAndChain

The `rules.New*` constructors live in the external rule-builder collaborator
(lib/rules); per spec §6 each is modelled as an opaque rule tuple carrying its
parameters. -/
inductive PRule where
  | markSet (ip tag guid : String)
  | markAllowLog (ip protocol : String) (startPort endPort : Int) (tag guid : String)
      (acceptedUDPLogsPerSec : Int)
  | markAllow (ip protocol : String) (startPort endPort : Int)
      (tag srcGuid dstGuid : String)
  | egressR (iface srcIP protocol ipStart ipEnd : String)
      (icmpType icmpCode portStart portEnd : Int)
  | markAllowNoComment (ip protocol : String) (port : Int) (tag : String)
deriving DecidableEq

/-- Method `planIPTableRules` of planner_linux.go. -/
def planIPTableRules (loggingEnabled : Bool) (acceptedUDPLogsPerSec : Int)
    (hostInterfaceNames : List String) (s : containerPolicySet) : List PRule :=
  (s.Source.map (fun m => PRule.markSet m.IP m.Tag m.GUID)) ++
    (s.Destination.flatMap (fun d =>
      (if loggingEnabled then
        [PRule.markAllowLog d.IP d.Protocol d.StartPort d.EndPort d.SourceTag d.GUID
          acceptedUDPLogsPerSec]
      else []) ++
      [PRule.markAllow d.IP d.Protocol d.StartPort d.EndPort d.SourceTag d.SourceGUID d.GUID])) ++
    (s.Egress.flatMap (fun e => hostInterfaceNames.map (fun i =>
      PRule.egressR i e.SourceIP e.Protocol e.IpStart e.IpEnd e.IcmpType e.IcmpCode
        e.PortStart e.PortEnd))) ++
    (s.Ingress.map (fun i => PRule.markAllowNoComment i.IP i.Protocol i.Port i.IngressTag))

/-- Method `GetRulesAndChain` after the external reads (datastore and policy
server) have produced their data: resolve, then plan; a resolution error is
returned as-is and the partially built set is never used. -/
def getRulesAndChain {α : Type} (chain : α) (loggingEnabled : Bool)
    (acceptedUDPLogsPerSec : Int) (hostInterfaceNames : List String) (ps : List policy)
    (eps : List egressPolicy) (tag : String) (cs : List container) (enabled : Bool) :
    Except RErr (α × List PRule) :=
  match getContainerPolicies ps eps tag cs enabled with
  | .error e => .error e
  | .ok s => .ok (chain, planIPTableRules loggingEnabled acceptedUDPLogsPerSec
      hostInterfaceNames s)

/-- Source-scope predicate exactly as the spec states it (for C7). -/
def specSourceScope (ep : egressPolicy) (c : container) : Prop :=
  ep.Source.ID = c.AppID ∨ (ep.Source.Type_ = "space" ∧ ep.Source.ID = c.SpaceID) ∨
    ep.Source.Type_ = "default"

/-- Lifecycle-gate predicate exactly as the spec states it (for C7). -/
def specLifecycleGate (ep : egressPolicy) (c : container) : Prop :=
  ep.AppLifecycle = "all" ∨ c.Purpose = "" ∨
    (ep.AppLifecycle = "running" ∧ (c.Purpose = "task" ∨ c.Purpose = "app")) ∨
    (ep.AppLifecycle = "staging" ∧ c.Purpose = "staging")

instance (ep : egressPolicy) (c : container) : Decidable (specSourceScope ep c) := by
  unfold specSourceScope; infer_instance

instance (ep : egressPolicy) (c : container) : Decidable (specLifecycleGate ep c) := by
  unfold specLifecycleGate; infer_instance

deriving instance DecidableEq for Except

/-- Example container used by the concrete witnesses below. -/
def cEx : container := ⟨"10.255.0.1", "A", "spaceA", "app", ""⟩

/-- Example policy naming cEx as source. -/
def pEx : policy := ⟨⟨"A", "42"⟩, ⟨"B", "tcp", ⟨8080, 8081⟩⟩⟩

/-- Second example policy with the same source app but a different tag. -/
def pEx2 : policy := ⟨⟨"A", "43"⟩, ⟨"B", "tcp", ⟨8080, 8081⟩⟩⟩

/-- Example egress policy matching cEx. -/
def epEx : egressPolicy := ⟨⟨"A", "app-id"⟩, "all", ⟨"tcp", [⟨"1.2.3.4", "1.2.3.8"⟩], [⟨80, 81⟩], 0, 0⟩⟩

/-- Example egress policy matching cEx whose IPRanges list is empty. -/
def epExBad : egressPolicy := ⟨⟨"A", "app-id"⟩, "all", ⟨"tcp", [], [], 0, 0⟩⟩

/-- Example container whose Ports string contains a non-numeric piece. -/
def cExBadPort : container := ⟨"10.255.0.2", "A", "spaceA", "app", "8080,abc"⟩

/-! ## Binary64 model for `rateLimitExpiryPeriod` (netout.go)

The Go code computes `int64(math.Ceil(float64(burst) / float64(ratePerSec)))`
and multiplies by 1000.  Nonnegative doubles are modelled as significand /
exponent pairs with value `num * 2 ^ exp`; `roundRat a b` rounds the
nonnegative rational `a / b` to 53 significant bits with round-to-nearest,
ties-to-even — the rounding performed both by the int-to-float conversions
and by the correctly rounded hardware division.  `math.Ceil` followed by the
`int64` conversion is exact for every value this code can produce in range,
and the final multiplication wraps as 64-bit two's complement. -/
/-- Binary length of `n` (`fuel`-bounded recursion; `n + 1` fuel suffices). -/
def bitlenAux : Nat → Nat → Nat
  | 0, _ => 0
  | f + 1, n => if n = 0 then 0 else bitlenAux f (n / 2) + 1

/-- Number of binary digits of `n`. -/
def bitlen (n : Nat) : Nat := bitlenAux (n + 1) n

/-- Decide `2 ^ e ≤ a / b` over the integers. -/
def pow2LE (b a : Nat) (e : Int) : Bool :=
  if 0 ≤ e then b * 2 ^ e.toNat ≤ a else b ≤ a * 2 ^ (-e).toNat

/-- Binade exponent of `a / b`: the unique `e` with `2 ^ e ≤ a / b < 2 ^ (e + 1)`. -/
def ebound (a b : Nat) : Int :=
  if pow2LE b a ((bitlen a : Int) - (bitlen b : Int)) then (bitlen a : Int) - (bitlen b : Int)
  else (bitlen a : Int) - (bitlen b : Int) - 1

/-- A nonnegative binary64 value: `num * 2 ^ exp`. -/
structure F64 where
  num : Nat
  exp : Int
deriving DecidableEq

/-- Rational value of a modelled double. -/
def F64.val (x : F64) : ℚ := (x.num : ℚ) * (2 : ℚ) ^ x.exp

/-- Round the nonnegative rational `a / b` to binary64 (round to nearest,
ties to even): scale into the binade `[2^52, 2^53)` and round the scaled
significand. -/
def roundRat (a b : Nat) : F64 :=
  if a = 0 ∨ b = 0 then ⟨0, 0⟩
  else
    let e := ebound a b
    let s := 52 - e
    let N := if 0 ≤ s then a * 2 ^ s.toNat else a
    let D := if 0 ≤ s then b else b * 2 ^ (-s).toNat
    let q := N / D
    let r := N % D
    let n := if 2 * r < D then q else if D < 2 * r then q + 1
      else if q % 2 = 0 then q else q + 1
    ⟨n, e - 52⟩

/-- Correctly rounded division of two modelled doubles. -/
def f64div (x y : F64) : F64 :=
  if 0 ≤ x.exp - y.exp then roundRat (x.num * 2 ^ (x.exp - y.exp).toNat) y.num
  else roundRat x.num (y.num * 2 ^ (y.exp - x.exp).toNat)

/-- `int64(math.Ceil(x))` for a nonnegative modelled double in range. -/
def f64ceilInt (x : F64) : Int :=
  if 0 ≤ x.exp then ((x.num * 2 ^ x.exp.toNat : Nat) : Int)
  else (((x.num + 2 ^ (-x.exp).toNat - 1) / 2 ^ (-x.exp).toNat : Nat) : Int)

/-- Two's-complement wrap of an integer into the int64 range. -/
def wrap64 (z : Int) : Int := ((z + 2 ^ 63) % 2 ^ 64) - 2 ^ 63

/-- Method `rateLimitExpiryPeriod` of netout.go (nonnegative fragment: the Go
fields are `int`, and the configuration of interest is positive):
`int64(math.Ceil(float64(burst)/float64(ratePerSec))) * int64(1000)`,
formatted with `%d`. -/
def rateLimitExpiryPeriodM (burst ratePerSec : Nat) : String :=
  toString (wrap64 (f64ceilInt (f64div (roundRat burst 1) (roundRat ratePerSec 1)) * 1000))

/-! ### netout.go: chain building (cni-wrapper-plugin/legacynet) -/
/-- Go constant `prefixInput` of netout.go. -/
def pfxInput : String := "input"

/-- Go constant `prefixNetOut` of netout.go. -/
def pfxNetOut : String := "netout"

/-- Go constant `prefixOverlay` of netout.go. -/
def pfxOverlay : String := "overlay"

/-- Go constant `suffixNetOutLog` of netout.go. -/
def sfxNetOutLog : String := "log"

/-- Go constant `suffixNetOutRateLimitLog` of netout.go. -/
def sfxNetOutRateLimitLog : String := "rl-log"

/-- A rule built by the external `lib/rules` package (absent from `src/`): one
symbolic constructor per `rules.New*` function called in netout.go, carrying
exactly the arguments the Go call site passes. `raw` covers the two literal
`rules.IPTablesRule` token lists of `BulkInsertRules`; `srcJump` and `jump`
cover the literal jump-condition rules; `netOutJumpCond` stands for the (single
opaque element produced by) `rules.NewNetOutJumpConditions`. -/
inductive GRule where
  | inputRelatedEstablished
  | inputDefaultReject
  | inputAllow (proto host : String) (port : Int)
  | inputReject (destination : String)
  | netOutDefaultReject
  | netOutDefaultRejectLog (handle : String) (deniedLogsPerSec : Int)
  | netOutNonUDPLog (handle : String)
  | netOutUDPLog (handle : String) (acceptedUDPLogsPerSec : Int)
  | overlayAllowEgress (vtep ip : String)
  | overlayRelatedEstablished (ip : String)
  | overlayTagAccept (ip tag : String)
  | overlayDefaultReject (ip : String)
  | overlayDefaultRejectLog (handle ip : String) (deniedLogsPerSec : Int)
  | accept
  | netOutConnRateLimit (rate burst handle expiry target : String)
  | netOutConnRateLimitRejectLog (handle : String) (deniedLogsPerSec : Int)
  | srcJump (ip chain : String)
  | jump (chain : String)
  | netOutJumpCond (hostIfaces : List String) (ip chain : String)
  | raw (tokens : List String)
deriving DecidableEq

/-- Struct `DenyNetworks` (three CIDR string lists). -/
structure DenyNetworks where
  Always : List String
  Running : List String
  Staging : List String
deriving DecidableEq

/-- Struct `OutConn` of netout.go. `Burst` and `RatePerSec` are Go `int`; the
model takes the nonnegative fragment, which covers every meaningful
configuration. -/
structure OutConn where
  Limit : Bool
  Logging : Bool
  Burst : Nat
  RatePerSec : Nat
  DryRun : Bool
deriving DecidableEq

/-- Struct `NetOut` of netout.go (the fields the modelled methods read; the
`ChainNamer`, `IPTables` and `Converter` collaborators are passed to the
modelled functions as explicit arguments). -/
structure NetOutM where
  ASGLogging : Bool
  C2CLogging : Bool
  IngressTag : String
  VTEPName : String
  HostInterfaceNames : List String
  DeniedLogsPerSec : Int
  AcceptedUDPLogsPerSec : Int
  ContainerHandle : String
  ContainerIP : String
  HostTCPServices : List String
  HostUDPServices : List String
  DenyNets : DenyNetworks
  DNSServers : List String
  ContainerWorkload : String
  Conn : OutConn
deriving DecidableEq

/-- Struct `IpTablesFullChain` (field names per the spec's ChainSpec: table,
parent chain, chain name, jump conditions, body). -/
structure IpTablesFullChain where
  Table : String
  ParentChain : String
  ChainName : String
  JumpConditions : List GRule
  Rules : List GRule
deriving DecidableEq

/-- One call from netout.go into the external packet-filter adapter. -/
inductive AdapterOp where
  | newChain (table chain : String)
  | applyChain (table chain : String) (jumpConditions body : List GRule)
  | bulkInsert (table chain : String) (pos : Nat) (body : List GRule)
deriving DecidableEq

/-- Method `addASGLogging`: when ASG logging is on, insert the reject-log rule
immediately before the last body rule. Every Go call site passes a nonempty
`Rules` (the Go code would panic otherwise). -/
def addASGLoggingM (m : NetOutM) (c : IpTablesFullChain) : IpTablesFullChain :=
  if m.ASGLogging then
    ⟨c.Table, c.ParentChain, c.ChainName, c.JumpConditions,
      c.Rules.dropLast ++
        [GRule.netOutDefaultRejectLog m.ContainerHandle m.DeniedLogsPerSec] ++
        c.Rules.drop (c.Rules.length - 1)⟩
  else c

/-- Method `addC2CLogging`: same insertion with the overlay reject-log rule. -/
def addC2CLoggingM (m : NetOutM) (c : IpTablesFullChain) : IpTablesFullChain :=
  if m.C2CLogging then
    ⟨c.Table, c.ParentChain, c.ChainName, c.JumpConditions,
      c.Rules.dropLast ++
        [GRule.overlayDefaultRejectLog m.ContainerHandle m.ContainerIP m.DeniedLogsPerSec] ++
        c.Rules.drop (c.Rules.length - 1)⟩
  else c

/-- Method `netOutLogChain`. `post` models `ChainNamer.Postfix` (absent from
`src/`); `Except.error` carries the Go error message. -/
def netOutLogChainM (post : String → String → Except String String)
    (forwardChainName sfx : String) (logRules : List GRule) :
    Except String IpTablesFullChain :=
  match post forwardChainName sfx with
  | Except.error e => Except.error e
  | Except.ok logChainName =>
      Except.ok ⟨"filter", "", logChainName, [GRule.jump logChainName], logRules⟩

/-- Method `connRateLimitLogChain`: the body gets the reject-log rule only if
`Conn.Logging`, and the terminal reject only if not `Conn.DryRun`. -/
def connRateLimitLogChainM (m : NetOutM) (post : String → String → Except String String)
    (forwardChainName : String) : Except String IpTablesFullChain :=
  netOutLogChainM post forwardChainName sfxNetOutRateLimitLog
    ((if m.Conn.Logging then
        [GRule.netOutConnRateLimitRejectLog m.ContainerHandle m.DeniedLogsPerSec]
      else []) ++
     (if m.Conn.DryRun then [] else [GRule.netOutDefaultReject]))

/-- Method `defaultNetOutRules`. `pre` models `ChainNamer.Prefix`. -/
def defaultNetOutRulesM (m : NetOutM) (pre : String → String → String)
    (post : String → String → Except String String) :
    Except String (List IpTablesFullChain) :=
  let inputChainName := pre pfxInput m.ContainerHandle
  let forwardChainName := pre pfxNetOut m.ContainerHandle
  let overlayChain := pre pfxOverlay m.ContainerHandle
  let args : List IpTablesFullChain := [
    ⟨"filter", "INPUT", inputChainName,
      [GRule.srcJump m.ContainerIP inputChainName],
      [GRule.inputRelatedEstablished, GRule.inputDefaultReject]⟩,
    addASGLoggingM m ⟨"filter", "FORWARD", forwardChainName,
      [GRule.netOutJumpCond m.HostInterfaceNames m.ContainerIP forwardChainName],
      [GRule.netOutDefaultReject]⟩,
    addC2CLoggingM m ⟨"filter", "FORWARD", overlayChain,
      [GRule.jump overlayChain],
      [GRule.overlayAllowEgress m.VTEPName m.ContainerIP,
       GRule.overlayRelatedEstablished m.ContainerIP,
       GRule.overlayTagAccept m.ContainerIP m.IngressTag,
       GRule.overlayDefaultReject m.ContainerIP]⟩]
  let logChainRules : List GRule :=
    [GRule.netOutNonUDPLog m.ContainerHandle,
     GRule.netOutUDPLog m.ContainerHandle m.AcceptedUDPLogsPerSec,
     GRule.accept]
  match netOutLogChainM post forwardChainName sfxNetOutLog logChainRules with
  | Except.error e => Except.error ("getting chain name: " ++ e)
  | Except.ok logChain =>
      if m.Conn.Limit then
        match connRateLimitLogChainM m post forwardChainName with
        | Except.error e => Except.error ("getting chain name: " ++ e)
        | Except.ok rl => Except.ok (args ++ [logChain] ++ [rl])
      else Except.ok (args ++ [logChain])

/-- One pass of the inner loop of `validateDenyNetworks` over a single list.
`parseC` models `net.ParseCIDR` followed by `fmt.Sprintf("%s", network)`
(stdlib, absent from `src/`): it returns the canonical network string or the
parse-error message. The Go loop writes the canonical form back into the slice
element by element and aborts on the first failure, so the returned list is
canonicalized exactly up to the failing entry. -/
def validateListGo (parseC : String → Except String String) :
    List String → Option String × List String
  | [] => (none, [])
  | d :: rest =>
      match parseC d with
      | Except.error e => (some ("deny networks: " ++ e), d :: rest)
      | Except.ok c =>
          let r := validateListGo parseC rest
          (r.1, c :: r.2)

/-- Method `validateDenyNetworks`: validates `Always`, `Running`, `Staging` in
that order, mutating each list in place; the first component is the error (if
any) and the second is the post-call state of the three lists. -/
def validateDenyNetworksM (parseC : String → Except String String)
    (dn : DenyNetworks) : Option String × DenyNetworks :=
  let ra := validateListGo parseC dn.Always
  match ra.1 with
  | some e => (some e, ⟨ra.2, dn.Running, dn.Staging⟩)
  | none =>
      let rr := validateListGo parseC dn.Running
      match rr.1 with
      | some e => (some e, ⟨ra.2, rr.2, dn.Staging⟩)
      | none =>
          let rs := validateListGo parseC dn.Staging
          (rs.1, ⟨ra.2, rr.2, rs.2⟩)

/-- The two DNS-server rules appended per server in `appendInputRules`. -/
def dnsInputRules : List String → List GRule
  | [] => []
  | d :: rest =>
      GRule.inputAllow "tcp" d 53 :: GRule.inputAllow "udp" d 53 :: dnsInputRules rest

/-- The host-service loop of `appendInputRules` for one protocol. `splitHP`
models `net.SplitHostPort`; `atoiGo` models `strconv.Atoi` (the Go error text
from `strconv` is summarized as "invalid syntax"). -/
def inputSvcRules (splitHP : String → Except String (String × String))
    (proto msg : String) : List String → Except String (List GRule)
  | [] => Except.ok []
  | s :: rest =>
      match splitHP s with
      | Except.error e => Except.error (msg ++ e)
      | Except.ok hp =>
          match atoiGo hp.2 with
          | none => Except.error (msg ++ "invalid syntax")
          | some p =>
              match inputSvcRules splitHP proto msg rest with
              | Except.error e => Except.error e
              | Except.ok rs => Except.ok (GRule.inputAllow proto hp.1 p :: rs)

/-- Method `appendInputRules`: rebuilds the body of `args[0]` (the input chain)
as related/established, DNS allows, host TCP allows, host UDP allows, default
reject. Every Go call site passes a nonempty `args` (the Go code would panic
otherwise). -/
def appendInputRulesM (splitHP : String → Except String (String × String))
    (args : List IpTablesFullChain) (dnsServers hostTCP hostUDP : List String) :
    Except String (List IpTablesFullChain) :=
  match args with
  | [] => Except.error "index out of range"
  | c0 :: rest =>
      match inputSvcRules splitHP "tcp" "host tcp services: " hostTCP with
      | Except.error e => Except.error e
      | Except.ok tcpRules =>
          match inputSvcRules splitHP "udp" "host udp services: " hostUDP with
          | Except.error e => Except.error e
          | Except.ok udpRules =>
              Except.ok (⟨c0.Table, c0.ParentChain, c0.ChainName, c0.JumpConditions,
                GRule.inputRelatedEstablished ::
                  (dnsInputRules dnsServers ++ tcpRules ++ udpRules ++
                    [GRule.inputDefaultReject])⟩ :: rest)

/-- Modelled from the spec: `initChains` (external `lib/rules`, absent from
`src/`) issues one chain-create adapter call per chain. Only the emptiness of
the trace is used by the theorems below. -/
def initChainsOps (args : List IpTablesFullChain) : List AdapterOp :=
  args.map fun c => AdapterOp.newChain c.Table c.ChainName

/-- Modelled from the spec: `applyRules` issues one apply call per chain with
its jump conditions and body. -/
def applyRulesOps (args : List IpTablesFullChain) : List AdapterOp :=
  args.map fun c => AdapterOp.applyChain c.Table c.ChainName c.JumpConditions c.Rules

/-- Method `Initialize` of netout.go: default rules, deny-network validation,
input rules, then `initChains` and `applyRules`. Returns the error outcome,
the post-call state of the deny-network lists (they are mutated in place by
validation), and the trace of adapter calls issued. -/
def netOutInitM (m : NetOutM) (pre : String → String → String)
    (post : String → String → Except String String)
    (splitHP : String → Except String (String × String))
    (parseC : String → Except String String) :
    Except String Unit × DenyNetworks × List AdapterOp :=
  match defaultNetOutRulesM m pre post with
  | Except.error e => (Except.error e, m.DenyNets, [])
  | Except.ok args =>
      let v := validateDenyNetworksM parseC m.DenyNets
      match v.1 with
      | some e => (Except.error e, v.2, [])
      | none =>
          match appendInputRulesM splitHP args m.DNSServers m.HostTCPServices
              m.HostUDPServices with
          | Except.error e => (Except.error ("input rules: " ++ e), v.2, [])
          | Except.ok args2 =>
              (Except.ok (), v.2, initChainsOps args2 ++ applyRulesOps args2)

/-- Method `denyNetworksRules`: one input-reject rule per deny entry, with the
`Running` list gated on workload app/task and `Staging` on workload staging. -/
def denyNetworksRulesM (m : NetOutM) : List GRule :=
  (m.DenyNets.Always.map GRule.inputReject) ++
  (if m.ContainerWorkload = "app" ∨ m.ContainerWorkload = "task" then
    m.DenyNets.Running.map GRule.inputReject
  else []) ++
  (if m.ContainerWorkload = "staging" then
    m.DenyNets.Staging.map GRule.inputReject
  else [])

/-- Method `rateLimitRule`: jump target is `REJECT`, or the rate-limit log
chain name when `Conn.Logging`; rate, burst and expiry are formatted strings
(`rateLimitExpiryPeriodM` is the modelled `rateLimitExpiryPeriod`). -/
def rateLimitRuleM (m : NetOutM) (post : String → String → Except String String)
    (forwardChainName : String) : Except String GRule :=
  match (if m.Conn.Logging then post forwardChainName sfxNetOutRateLimitLog
         else Except.ok "REJECT") with
  | Except.error e => Except.error e
  | Except.ok jumpTarget =>
      Except.ok (GRule.netOutConnRateLimit
        (toString m.Conn.RatePerSec ++ "/sec")
        (toString m.Conn.Burst)
        m.ContainerHandle
        (rateLimitExpiryPeriodM m.Conn.Burst m.Conn.RatePerSec)
        jumpTarget)

/-- Method `BulkInsertRules`. `conv` models `Converter.BulkConvert` (external,
absent from `src/`) over an abstract garden-rule type `γ`; the result is the
trace of adapter calls (one bulk insert at position 1 on success). -/
def bulkInsertRulesM {γ : Type} (m : NetOutM) (pre : String → String → String)
    (post : String → String → Except String String)
    (conv : List γ → String → Bool → List GRule) (netOutRules : List γ) :
    Except String (List AdapterOp) :=
  let chain := pre pfxNetOut m.ContainerHandle
  match post chain sfxNetOutLog with
  | Except.error e => Except.error ("getting chain name: " ++ e)
  | Except.ok logChain =>
      let ruleSpec := conv netOutRules logChain m.ASGLogging ++ denyNetworksRulesM m
      match (if m.Conn.Limit then
               match rateLimitRuleM m post chain with
               | Except.error e => Except.error ("getting chain name: " ++ e)
               | Except.ok r => Except.ok (ruleSpec ++ [r])
             else Except.ok ruleSpec) with
      | Except.error e => Except.error e
      | Except.ok ruleSpec2 =>
          Except.ok [AdapterOp.bulkInsert "filter" chain 1 (ruleSpec2 ++
            [GRule.raw ["-p", "tcp", "-m", "state", "--state", "INVALID", "-j", "DROP"],
             GRule.raw ["-m", "state", "--state", "RELATED,ESTABLISHED", "-j", "ACCEPT"]])]

/-- Terminal body rule in the sense of the spec: an unconditional accept or
default reject. -/
def isTerminalRule : GRule → Bool
  | GRule.accept => true
  | GRule.inputDefaultReject => true
  | GRule.netOutDefaultReject => true
  | GRule.overlayDefaultReject _ => true
  | _ => false

/-- A body that ends with exactly one terminal rule: nonempty, the last rule
terminal, and no earlier rule terminal. -/
def goodBody (rs : List GRule) : Bool :=
  match rs.reverse with
  | [] => false
  | t :: rest => isTerminalRule t && rest.all fun r => !(isTerminalRule r)

/-- Some entry of some deny-network list fails to parse. -/
def hasBadDenyEntry (parseC : String → Except String String) (dn : DenyNetworks) : Bool :=
  (dn.Always ++ dn.Running ++ dn.Staging).any fun d =>
    match parseC d with
    | Except.error _ => true
    | Except.ok _ => false

/-- Concrete chain namer for examples: joins parts with "--". -/
def preEx : String → String → String := fun p h => p ++ "--" ++ h

/-- Concrete postfix namer for examples: always succeeds. -/
def postEx : String → String → Except String String :=
  fun c s => Except.ok (c ++ "--" ++ s)

/-- Concrete host/port splitter for examples (never consulted: the example
configurations carry no host services). -/
def splitHPEx : String → Except String (String × String) :=
  fun _ => Except.error "missing port in address"

/-- Concrete `net.ParseCIDR`-plus-format table for examples: "10.0.0.1/8"
canonicalizes to the network "10.0.0.0/8" (as Go's `net.ParseCIDR` does),
everything else fails. -/
def parseCEx : String → Except String String :=
  fun s => if s = "10.0.0.1/8" then Except.ok "10.0.0.0/8"
    else Except.error ("invalid CIDR address: " ++ s)

/-- Example configuration for C4: one valid (non-canonical) and one invalid
deny entry. -/
def mEx4 : NetOutM :=
  ⟨false, false, "tag", "vtep", [], 2, 3, "handle", "10.255.0.5", [], [],
    ⟨["10.0.0.1/8", "bad"], [], []⟩, [], "app", ⟨false, false, 0, 0, false⟩⟩

/-- The chain list `defaultNetOutRules` produces for `mEx4`. -/
def argsEx4 : List IpTablesFullChain :=
  [⟨"filter", "INPUT", "input--handle",
    [GRule.srcJump "10.255.0.5" "input--handle"],
    [GRule.inputRelatedEstablished, GRule.inputDefaultReject]⟩,
   ⟨"filter", "FORWARD", "netout--handle",
    [GRule.netOutJumpCond [] "10.255.0.5" "netout--handle"],
    [GRule.netOutDefaultReject]⟩,
   ⟨"filter", "FORWARD", "overlay--handle",
    [GRule.jump "overlay--handle"],
    [GRule.overlayAllowEgress "vtep" "10.255.0.5",
     GRule.overlayRelatedEstablished "10.255.0.5",
     GRule.overlayTagAccept "10.255.0.5" "tag",
     GRule.overlayDefaultReject "10.255.0.5"]⟩,
   ⟨"filter", "", "netout--handle--log",
    [GRule.jump "netout--handle--log"],
    [GRule.netOutNonUDPLog "handle", GRule.netOutUDPLog "handle" 3, GRule.accept]⟩]

/-- Example configuration for C6: all logging on, rate limit on, dry-run off. -/
def mEx6 : NetOutM :=
  ⟨true, true, "tag", "vtep", ["eth0"], 2, 3, "handle", "10.255.0.5", [], [],
    ⟨[], [], []⟩, [], "app", ⟨true, true, 5, 2, false⟩⟩

/-- The chain list `defaultNetOutRules` produces for `mEx6`. -/
def argsEx6 : List IpTablesFullChain :=
  [⟨"filter", "INPUT", "input--handle",
    [GRule.srcJump "10.255.0.5" "input--handle"],
    [GRule.inputRelatedEstablished, GRule.inputDefaultReject]⟩,
   ⟨"filter", "FORWARD", "netout--handle",
    [GRule.netOutJumpCond ["eth0"] "10.255.0.5" "netout--handle"],
    [GRule.netOutDefaultRejectLog "handle" 2, GRule.netOutDefaultReject]⟩,
   ⟨"filter", "FORWARD", "overlay--handle",
    [GRule.jump "overlay--handle"],
    [GRule.overlayAllowEgress "vtep" "10.255.0.5",
     GRule.overlayRelatedEstablished "10.255.0.5",
     GRule.overlayTagAccept "10.255.0.5" "tag",
     GRule.overlayDefaultRejectLog "handle" "10.255.0.5" 2,
     GRule.overlayDefaultReject "10.255.0.5"]⟩,
   ⟨"filter", "", "netout--handle--log",
    [GRule.jump "netout--handle--log"],
    [GRule.netOutNonUDPLog "handle", GRule.netOutUDPLog "handle" 3, GRule.accept]⟩,
   ⟨"filter", "", "netout--handle--rl-log",
    [GRule.jump "netout--handle--rl-log"],
    [GRule.netOutConnRateLimitRejectLog "handle" 2, GRule.netOutDefaultReject]⟩]

/-- Configuration refuting the original C6: rate limit on, dry-run on,
rate-limit logging off. -/
def mDry : NetOutM :=
  ⟨false, false, "tag", "vtep", [], 2, 3, "handle", "10.255.0.5", [], [],
    ⟨[], [], []⟩, [], "app", ⟨true, false, 5, 2, true⟩⟩

/-- The chain list `defaultNetOutRules` produces for `mDry`: the rate-limit
log chain body is empty — no terminal rule at all. -/
def argsDry : List IpTablesFullChain :=
  [⟨"filter", "INPUT", "input--handle",
    [GRule.srcJump "10.255.0.5" "input--handle"],
    [GRule.inputRelatedEstablished, GRule.inputDefaultReject]⟩,
   ⟨"filter", "FORWARD", "netout--handle",
    [GRule.netOutJumpCond [] "10.255.0.5" "netout--handle"],
    [GRule.netOutDefaultReject]⟩,
   ⟨"filter", "FORWARD", "overlay--handle",
    [GRule.jump "overlay--handle"],
    [GRule.overlayAllowEgress "vtep" "10.255.0.5",
     GRule.overlayRelatedEstablished "10.255.0.5",
     GRule.overlayTagAccept "10.255.0.5" "tag",
     GRule.overlayDefaultReject "10.255.0.5"]⟩,
   ⟨"filter", "", "netout--handle--log",
    [GRule.jump "netout--handle--log"],
    [GRule.netOutNonUDPLog "handle", GRule.netOutUDPLog "handle" 3, GRule.accept]⟩,
   ⟨"filter", "", "netout--handle--rl-log",
    [GRule.jump "netout--handle--rl-log"], []⟩]

/-- Concrete converter for the C9 example. -/
def convEx : List Nat → String → Bool → List GRule :=
  fun ns lc _ => ns.map fun n => GRule.raw [lc, toString n]

/-- Example configuration for C9: rate limit and rate-limit logging on,
deny networks populated, workload "app". -/
def mEx9 : NetOutM :=
  ⟨true, false, "tag", "vtep", [], 2, 3, "handle", "10.255.0.5", [], [],
    ⟨["10.0.0.0/8"], ["10.1.0.0/16"], ["10.2.0.0/16"]⟩, [], "app",
    ⟨true, true, 100, 10, false⟩⟩

theorem toNat_ofNat_small {n : Nat} (h : n < 55296) : (Char.ofNat n).toNat = n := by
  unfold Char.ofNat
  rw [dif_pos (Or.inl h)]
  rfl

theorem char_eq_of_toNat_eq {c d : Char} (h : c.toNat = d.toNat) : c = d := by
  apply Char.eq_of_val_eq
  apply UInt32.eq_of_toBitVec_eq
  exact BitVec.eq_of_toNat_eq h

theorem hexVal_hexDigit {d : Nat} (h : d < 16) : hexVal (hexDigit d) = d := by
  unfold hexDigit hexVal
  by_cases h10 : d < 10
  · rw [if_pos h10, toNat_ofNat_small (by omega)]
    simp only [if_pos (by omega : 48 + d ≤ 57)]
    omega
  · rw [if_neg h10, toNat_ofNat_small (by omega)]
    rw [if_neg (by omega : ¬ 87 + d ≤ 57)]
    omega

theorem hexVal_zero : hexVal '0' = 0 := by decide

theorem unq_step (c : Char) (tail : List Char) :
    unq (escChar c ++ tail) = (c :: (unq tail).1, (unq tail).2) := by
  by_cases h1 : c = '"'
  · subst h1; simp [escChar, unq]
  by_cases h2 : c = '\\'
  · subst h2; simp [escChar, unq]
  by_cases h3 : c = '\n'
  · subst h3; simp [escChar, unq]
  by_cases h4 : c = '\r'
  · subst h4; simp [escChar, unq]
  by_cases h5 : c = '\t'
  · subst h5; simp [escChar, unq]
  by_cases h6 : c.toNat < 32
  · rw [escChar, if_neg h1, if_neg h2, if_neg h3, if_neg h4, if_neg h5, if_pos h6]
    simp only [List.cons_append, List.nil_append, unq]
    norm_num [hexVal_zero, hexVal_hexDigit (show c.toNat / 16 < 16 by omega),
      hexVal_hexDigit (show c.toNat % 16 < 16 by omega)]
    have harith : (c.toNat / 16) * 16 + c.toNat % 16 = c.toNat := by omega
    rw [harith, Char.ofNat_toNat]
  by_cases h7 : c = '<'
  · subst h7; simp [escChar, unq]; decide
  by_cases h8 : c = '>'
  · subst h8; simp [escChar, unq]; decide
  by_cases h9 : c = '&'
  · subst h9; simp [escChar, unq]; decide
  by_cases h10 : c.toNat = 8232
  · rw [escChar, if_neg h1, if_neg h2, if_neg h3, if_neg h4, if_neg h5, if_neg (by omega),
      if_neg h7, if_neg h8, if_neg h9, if_pos h10]
    simp only [List.cons_append, List.nil_append, unq, Prod.mk.injEq, List.cons.injEq]
    refine ⟨⟨?_, rfl⟩, rfl⟩
    apply char_eq_of_toNat_eq
    rw [h10]; decide
  by_cases h11 : c.toNat = 8233
  · rw [escChar, if_neg h1, if_neg h2, if_neg h3, if_neg h4, if_neg h5, if_neg (by omega),
      if_neg h7, if_neg h8, if_neg h9, if_neg h10, if_pos h11]
    simp only [List.cons_append, List.nil_append, unq, Prod.mk.injEq, List.cons.injEq]
    refine ⟨⟨?_, rfl⟩, rfl⟩
    apply char_eq_of_toNat_eq
    rw [h11]; decide
  · rw [escChar, if_neg h1, if_neg h2, if_neg h3, if_neg h4, if_neg h5, if_neg h6,
      if_neg h7, if_neg h8, if_neg h9, if_neg h10, if_neg h11]
    rw [List.singleton_append, unq]
    all_goals intros
    all_goals simp_all

theorem unq_jesc : ∀ (xs suffix : List Char), unq (jesc xs ++ '"' :: suffix) = (xs, suffix)
  | [], suffix => by simp [jesc, unq]
  | x :: xs, suffix => by
    have ih := unq_jesc xs suffix
    show unq (jesc (x :: xs) ++ '"' :: suffix) = (x :: xs, suffix)
    have hflat : jesc (x :: xs) = escChar x ++ jesc xs := by simp [jesc]
    rw [hflat, List.append_assoc, unq_step x (jesc xs ++ '"' :: suffix), ih]

theorem jesc_quote_inj {x y s t : List Char}
    (h : jesc x ++ '"' :: s = jesc y ++ '"' :: t) : x = y ∧ s = t := by
  have h1 := unq_jesc x s
  have h2 := unq_jesc y t
  rw [h, h2] at h1
  exact ⟨(Prod.mk.injEq _ _ _ _).mp h1.symm |>.1, (Prod.mk.injEq _ _ _ _).mp h1.symm |>.2⟩

theorem digitChar_toNat {d : Nat} (h : d < 10) : (Nat.digitChar d).toNat = 48 + d := by
  interval_cases d <;> rfl

theorem natVal_natCharsAux : ∀ (fuel n : Nat), n < 10 ^ fuel →
    natVal (natCharsAux fuel n) = n := by
  intro fuel
  induction fuel with
  | zero => intro n h; simp only [natCharsAux, natVal, List.foldl_nil]; omega
  | succ fuel ih =>
    intro n h
    by_cases h10 : n < 10
    · simp only [natCharsAux, if_pos h10, natVal, List.foldl_cons, List.foldl_nil]
      rw [digitChar_toNat h10]
      omega
    · have hdiv : n / 10 < 10 ^ fuel := by
        rw [pow_succ] at h
        omega
      simp only [natCharsAux, if_neg h10, natVal, List.foldl_append,
        List.foldl_cons, List.foldl_nil]
      have h1 := ih (n / 10) hdiv
      unfold natVal at h1
      rw [h1, digitChar_toNat (by omega)]
      omega

theorem lt_ten_pow (n : Nat) : n < 10 ^ (n + 1) := by
  calc n < 2 ^ n := Nat.lt_two_pow n
  _ ≤ 10 ^ n := Nat.pow_le_pow_left (by norm_num) n
  _ ≤ 10 ^ (n + 1) := Nat.pow_le_pow_right (by norm_num) (Nat.le_succ n)

theorem natVal_natChars (n : Nat) : natVal (natChars n) = n :=
  natVal_natCharsAux (n + 1) n (lt_ten_pow n)

theorem natChars_inj {m n : Nat} (h : natChars m = natChars n) : m = n := by
  have := natVal_natChars m
  rw [h, natVal_natChars n] at this
  omega

theorem natCharsAux_digits : ∀ (fuel n : Nat), ∀ c ∈ natCharsAux fuel n,
    48 ≤ c.toNat ∧ c.toNat ≤ 57 := by
  intro fuel
  induction fuel with
  | zero => intro n c hc; simp [natCharsAux] at hc
  | succ fuel ih =>
    intro n c hc
    by_cases h10 : n < 10
    · simp only [natCharsAux, if_pos h10, List.mem_singleton] at hc
      subst hc
      rw [digitChar_toNat h10]
      omega
    · simp only [natCharsAux, if_neg h10, List.mem_append, List.mem_singleton] at hc
      rcases hc with hc | hc
      · exact ih (n / 10) c hc
      · subst hc
        rw [digitChar_toNat (by omega)]
        omega

theorem intChars_digits (i : Int) : ∀ c ∈ intChars i,
    c.toNat = 45 ∨ (48 ≤ c.toNat ∧ c.toNat ≤ 57) := by
  intro c hc
  unfold intChars at hc
  by_cases hneg : i < 0
  · rw [if_pos hneg] at hc
    rcases List.mem_cons.mp hc with hc | hc
    · subst hc; left; rfl
    · right; exact natCharsAux_digits _ _ c hc
  · rw [if_neg hneg] at hc
    right; exact natCharsAux_digits _ _ c hc

theorem natChars_ne_nil (n : Nat) : natChars n ≠ [] := by
  unfold natChars natCharsAux
  by_cases h10 : n < 10
  · rw [if_pos h10]; simp
  · rw [if_neg h10]; simp

theorem natChars_digits (n : Nat) : ∀ c ∈ natChars n, 48 ≤ c.toNat ∧ c.toNat ≤ 57 :=
  natCharsAux_digits (n + 1) n

theorem intChars_inj {i j : Int} (h : intChars i = intChars j) : i = j := by
  unfold intChars at h
  have h45 : ¬ (48 ≤ ('-').toNat ∧ ('-').toNat ≤ 57) := by decide
  by_cases hi : i < 0 <;> by_cases hj : j < 0
  · rw [if_pos hi, if_pos hj] at h
    have h2 := natChars_inj ((List.cons.injEq _ _ _ _).mp h).2
    omega
  · rw [if_pos hi, if_neg hj] at h
    exfalso
    rcases List.exists_cons_of_ne_nil (natChars_ne_nil j.toNat) with ⟨c, cs, hc⟩
    rw [hc] at h
    have hcm : c = '-' := ((List.cons.injEq _ _ _ _).mp h.symm).1
    have hmem : c ∈ natChars j.toNat := by rw [hc]; exact List.mem_cons_self _ _
    have hd := natChars_digits j.toNat c hmem
    rw [hcm] at hd
    exact h45 hd
  · rw [if_neg hi, if_pos hj] at h
    exfalso
    rcases List.exists_cons_of_ne_nil (natChars_ne_nil i.toNat) with ⟨c, cs, hc⟩
    rw [hc] at h
    have hcm : c = '-' := ((List.cons.injEq _ _ _ _).mp h).1
    have hmem : c ∈ natChars i.toNat := by rw [hc]; exact List.mem_cons_self _ _
    have hd := natChars_digits i.toNat c hmem
    rw [hcm] at hd
    exact h45 hd
  · rw [if_neg hi, if_neg hj] at h
    have h2 := natChars_inj h
    omega

/-- Splitting at a delimiter absent from both prefixes is unambiguous. -/
theorem append_delim_inj {d : Char} : ∀ {A B s t : List Char},
    (∀ c ∈ A, c ≠ d) → (∀ c ∈ B, c ≠ d) →
    A ++ d :: s = B ++ d :: t → A = B ∧ s = t := by
  intro A
  induction A with
  | nil =>
    intro B s t _ hB h
    cases B with
    | nil => simpa using h
    | cons b bs =>
      exfalso
      simp only [List.nil_append, List.cons_append, List.cons.injEq] at h
      exact hB b (List.mem_cons_self _ _) h.1.symm
  | cons a as ih =>
    intro B s t hA hB h
    cases B with
    | nil =>
      exfalso
      simp only [List.cons_append, List.nil_append, List.cons.injEq] at h
      exact hA a (List.mem_cons_self _ _) h.1
    | cons b bs =>
      simp only [List.cons_append, List.cons.injEq] at h
      obtain ⟨rfl, h2⟩ := h
      have := ih (fun c hc => hA c (List.mem_cons_of_mem _ hc))
        (fun c hc => hB c (List.mem_cons_of_mem _ hc)) h2
      exact ⟨by rw [this.1], this.2⟩

theorem strExt {x y : String} (h : x.data = y.data) : x = y := by
  cases x; cases y; exact congrArg String.mk h

theorem intChars_ne_comma (v : Int) : ∀ c ∈ intChars v, c ≠ ',' := by
  intro c hc heq
  have hd := intChars_digits v c hc
  rw [heq] at hd
  exact (by decide : ¬ ((',').toNat = 45 ∨ (48 ≤ (',').toNat ∧ (',').toNat ≤ 57))) hd

theorem intChars_ne_rbrace (v : Int) : ∀ c ∈ intChars v, c ≠ '\x7d' := by
  intro c hc heq
  have hd := intChars_digits v c hc
  rw [heq] at hd
  exact (by decide : ¬ (('\x7d').toNat = 45 ∨ (48 ≤ ('\x7d').toNat ∧ ('\x7d').toNat ≤ 57))) hd

theorem marshalSource_inj {a b : source} (h : marshalSource a = marshalSource b) :
    a = b := by
  unfold marshalSource at h
  obtain ⟨e1, h⟩ := jesc_quote_inj (List.append_cancel_left h)
  obtain ⟨e2, h⟩ := jesc_quote_inj (List.append_cancel_left h)
  obtain ⟨e3, -⟩ := jesc_quote_inj (List.append_cancel_left h)
  cases a; cases b
  simp only [source.mk.injEq]
  exact ⟨strExt e1, strExt e2, strExt e3⟩

theorem marshalDestination_inj {a b : destination}
    (h : marshalDestination a = marshalDestination b) : a = b := by
  unfold marshalDestination at h
  obtain ⟨e1, h⟩ := jesc_quote_inj (List.append_cancel_left h)
  obtain ⟨e2, h⟩ := append_delim_inj (intChars_ne_comma _) (intChars_ne_comma _)
    (List.append_cancel_left h)
  obtain ⟨e3, h⟩ := append_delim_inj (intChars_ne_comma _) (intChars_ne_comma _)
    (List.append_cancel_left h)
  obtain ⟨e4, h⟩ := jesc_quote_inj (List.append_cancel_left h)
  obtain ⟨e5, h⟩ := jesc_quote_inj (List.append_cancel_left h)
  obtain ⟨e6, h⟩ := jesc_quote_inj (List.append_cancel_left h)
  obtain ⟨e7, -⟩ := jesc_quote_inj (List.append_cancel_left h)
  cases a; cases b
  simp only [destination.mk.injEq]
  exact ⟨strExt e1, intChars_inj e2, intChars_inj e3, strExt e4, strExt e5,
    strExt e6, strExt e7⟩

theorem marshalEgress_inj {a b : egress} (h : marshalEgress a = marshalEgress b) :
    a = b := by
  unfold marshalEgress at h
  obtain ⟨e1, h⟩ := jesc_quote_inj (List.append_cancel_left h)
  obtain ⟨e2, h⟩ := jesc_quote_inj (List.append_cancel_left h)
  obtain ⟨e3, h⟩ := jesc_quote_inj (List.append_cancel_left h)
  obtain ⟨e4, h⟩ := jesc_quote_inj (List.append_cancel_left h)
  obtain ⟨e5, h⟩ := append_delim_inj (intChars_ne_comma _) (intChars_ne_comma _)
    (List.append_cancel_left h)
  obtain ⟨e6, h⟩ := append_delim_inj (intChars_ne_comma _) (intChars_ne_comma _)
    (List.append_cancel_left h)
  obtain ⟨e7, h⟩ := append_delim_inj (intChars_ne_comma _) (intChars_ne_comma _)
    (List.append_cancel_left h)
  obtain ⟨e8, -⟩ := append_delim_inj (intChars_ne_rbrace _) (intChars_ne_rbrace _)
    (List.append_cancel_left h)
  cases a; cases b
  simp only [egress.mk.injEq]
  exact ⟨strExt e1, strExt e2, strExt e3, strExt e4, intChars_inj e5,
    intChars_inj e6, intChars_inj e7, intChars_inj e8⟩

theorem marshalIngress_inj {a b : ingress} (h : marshalIngress a = marshalIngress b) :
    a = b := by
  unfold marshalIngress at h
  obtain ⟨e1, h⟩ := jesc_quote_inj (List.append_cancel_left h)
  obtain ⟨e2, h⟩ := jesc_quote_inj (List.append_cancel_left h)
  obtain ⟨e3, h⟩ := jesc_quote_inj (List.append_cancel_left h)
  obtain ⟨e4, -⟩ := append_delim_inj (intChars_ne_rbrace _) (intChars_ne_rbrace _)
    (List.append_cancel_left h)
  cases a; cases b
  simp only [ingress.mk.injEq]
  exact ⟨strExt e1, strExt e2, strExt e3, intChars_inj e4⟩

theorem destsFor_cons (p : policy) (ps : List policy) (c : container) :
    destsFor (p :: ps) c =
      (if c.AppID == p.Destination.ID then
        [(⟨c.IP, p.Destination.Ports.Start, p.Destination.Ports.End, p.Destination.ID,
          p.Source.ID, p.Destination.Protocol, p.Source.Tag⟩ : destination)]
      else []) ++ destsFor ps c := by
  unfold destsFor
  rw [List.filter_cons]
  by_cases h : (c.AppID == p.Destination.ID) = true
  · rw [if_pos h, if_pos h, List.map_cons, List.singleton_append]
  · rw [if_neg h, if_neg h, List.nil_append]

theorem srcDestLoop_dests (c : container) : ∀ (ps : List policy) (v : List String),
    (srcDestLoop c ps v).2.2 = destsFor ps c := by
  intro ps
  induction ps with
  | nil => intro v; simp [srcDestLoop, destsFor]
  | cons p ps ih =>
    intro v
    simp only [srcDestLoop, destsFor_cons]
    by_cases hsrc : (c.AppID == p.Source.ID) = true
    · by_cases hv : v.contains c.IP <;> simp [hsrc, hv, ih]
    · simp [hsrc, ih]

theorem srcDestLoop_sv (c : container) : ∀ (ps : List policy) (v : List String),
    ((srcDestLoop c ps v).1, (srcDestLoop c ps v).2.1) =
      match (if v.contains c.IP then none
             else ps.find? (fun p => c.AppID == p.Source.ID)) with
      | some p => (c.IP :: v, [⟨c.IP, p.Source.Tag, p.Source.ID⟩])
      | none => (v, []) := by
  intro ps
  induction ps with
  | nil =>
    intro v
    by_cases hv : v.contains c.IP <;> simp [srcDestLoop, hv]
  | cons p ps ih =>
    intro v
    by_cases hsrc : (c.AppID == p.Source.ID) = true
    · have hfind : List.find? (fun q => c.AppID == q.Source.ID) (p :: ps) = some p :=
        List.find?_cons_of_pos _ hsrc
      by_cases hv : v.contains c.IP
      · have h1 := ih v
        rw [if_pos hv] at h1
        simp only [Prod.mk.injEq] at h1
        simp only [srcDestLoop, if_pos hsrc, if_pos hv, hfind]
        simp [h1.1, h1.2]
      · have h1 := ih (c.IP :: v)
        rw [if_pos (by simp [List.contains_cons] : (c.IP :: v).contains c.IP = true)] at h1
        simp only [Prod.mk.injEq] at h1
        simp only [srcDestLoop, if_pos hsrc, if_neg hv, hfind]
        simp [hv, h1.1, h1.2]
    · have hfind : List.find? (fun q => c.AppID == q.Source.ID) (p :: ps) =
          List.find? (fun q => c.AppID == q.Source.ID) ps :=
        List.find?_cons_of_neg _ hsrc
      have h1 := ih v
      simp only [srcDestLoop, if_neg hsrc, hfind, List.nil_append]
      exact h1

theorem egressLoop_eq (c : container) : ∀ (eps : List egressPolicy),
    egressLoop c eps =
      if eps.any (fun ep => egressPairMatches c ep && ep.Destination.IPRanges.isEmpty) then
        .error .indexPanic
      else .ok (egressFor eps c) := by
  intro eps
  induction eps with
  | nil => simp [egressLoop, egressFor]
  | cons ep eps ih =>
    by_cases hm1 : egressSourceMatches ep c = true
    · by_cases hm2 : containerPurposeMatchesAppLifecycle c.Purpose ep.AppLifecycle = true
      · have hpair : egressPairMatches c ep = true := by
          simp [egressPairMatches, hm1, hm2]
        cases hr : ep.Destination.IPRanges with
        | nil =>
          simp [egressLoop, hm1, hm2, hr, List.any_cons, hpair]
        | cons ipr rest =>
          by_cases htail :
              (eps.any (fun ep => egressPairMatches c ep && ep.Destination.IPRanges.isEmpty)) = true
          · rw [if_pos (by simp [List.any_cons, htail])]
            simp only [egressLoop, hm1, hm2, hr, if_pos rfl]
            rw [ih, if_pos htail]
            simp
          · rw [if_neg (by simp [List.any_cons, htail, hpair, hr])]
            simp only [egressLoop, hm1, hm2, hr, if_pos rfl]
            rw [ih, if_neg htail]
            simp only [egressFor, List.filter_cons, hpair, if_pos rfl, List.map_cons]
            cases hp : ep.Destination.Ports <;> simp [hp, mkEgress, hr]
      · have hpair : egressPairMatches c ep = false := by
          simp [egressPairMatches, hm2]
        simp only [egressLoop, if_pos hm1, if_neg hm2, ih, List.any_cons, hpair,
          Bool.false_and, Bool.false_or, egressFor, List.filter_cons]
        simp
    · have hpair : egressPairMatches c ep = false := by
        simp [egressPairMatches, hm1]
      simp only [egressLoop, if_neg hm1, ih, List.any_cons, hpair,
        Bool.false_and, Bool.false_or, egressFor, List.filter_cons]
      simp

theorem ingressPieces_ok (tag : String) (c : container) : ∀ (pieces : List (List Char)),
    pieces.all (fun piece => (atoiGo (goTrimSpace (String.mk piece))).isSome) = true →
    ingressPieces tag c pieces =
      .ok (pieces.map
        (fun piece => ⟨tag, c.IP, "tcp", (atoiGo (goTrimSpace (String.mk piece))).getD 0⟩)) := by
  intro pieces
  induction pieces with
  | nil => intro _; simp [ingressPieces]
  | cons piece rest ih =>
    intro hall
    simp only [List.all_cons, Bool.and_eq_true] at hall
    cases hp : atoiGo (goTrimSpace (String.mk piece)) with
    | none => rw [hp] at hall; simp at hall
    | some v =>
      simp only [ingressPieces, hp, ih hall.2, List.map_cons]
      simp [hp]

theorem ingressPieces_err (tag : String) (c : container) : ∀ (pieces : List (List Char)),
    pieces.all (fun piece => (atoiGo (goTrimSpace (String.mk piece))).isSome) = false →
    ∃ msg, ingressPieces tag c pieces = .error (.goErr msg) := by
  intro pieces
  induction pieces with
  | nil => intro h; simp at h
  | cons piece rest ih =>
    intro hall
    cases hp : atoiGo (goTrimSpace (String.mk piece)) with
    | none =>
      refine ⟨"converting container metadata port to int: " ++ String.mk piece, ?_⟩
      simp [ingressPieces, hp]
    | some v =>
      simp only [List.all_cons, hp, Option.isSome_some, Bool.true_and] at hall
      obtain ⟨msg, hmsg⟩ := ih hall
      exact ⟨msg, by simp [ingressPieces, hp, hmsg]⟩

theorem ingressLoop_ok (tag : String) (c : container) (h : portsOk c = true) :
    ingressLoop tag c = .ok (ingressFor tag c) := by
  unfold ingressLoop ingressFor
  by_cases he : c.Ports = ""
  · simp [he]
  · simp only [if_neg he]
    unfold portsOk at h
    rw [Bool.or_eq_true] at h
    cases h with
    | inl h => exact absurd (by simpa using h) he
    | inr h => exact ingressPieces_ok tag c _ h

theorem ingressLoop_err (tag : String) (c : container) (h : portsOk c = false) :
    ∃ msg, ingressLoop tag c = .error (.goErr msg) := by
  unfold ingressLoop
  unfold portsOk at h
  rw [Bool.or_eq_false_iff] at h
  rw [if_neg (by simpa using h.1)]
  exact ingressPieces_err tag c _ h.2

theorem ingressLoop_err_kind (tag : String) (c : container) :
    ∀ e, ingressLoop tag c = .error e → (∃ msg, e = .goErr msg) ∧ portsOk c = false := by
  intro e he
  by_cases h : portsOk c = true
  · rw [ingressLoop_ok tag c h] at he; cases he
  · rw [Bool.not_eq_true] at h
    obtain ⟨msg, hmsg⟩ := ingressLoop_err tag c h
    rw [hmsg] at he
    cases he
    exact ⟨⟨msg, rfl⟩, h⟩

theorem aux_ok (en : Bool) (tag : String) (ps : List policy) (eps : List egressPolicy) :
    ∀ (cs : List container) (v : List String),
      (∀ c ∈ cs, noPanicFor eps c = true) →
      (en = true → ∀ c ∈ cs, portsOk c = true) →
      getContainerPoliciesAux en tag ps eps cs v =
        .ok (marksAccum ps cs v, cs.flatMap (destsFor ps), cs.flatMap (egressFor eps),
          if en then cs.flatMap (ingressFor tag) else []) := by
  intro cs
  induction cs with
  | nil =>
    intro v _ _
    cases en <;> simp [getContainerPoliciesAux, marksAccum]
  | cons c cs ih =>
    intro v hnp hpo
    have hanyf :
        (eps.any fun ep => egressPairMatches c ep && ep.Destination.IPRanges.isEmpty) = false := by
      have h1 := hnp c (List.mem_cons_self c cs)
      unfold noPanicFor at h1
      rw [List.all_eq_true] at h1
      rw [List.any_eq_false]
      intro ep hep
      have h2 := h1 ep hep
      simp at h2 ⊢
      intro hpm
      rcases h2 with h2 | h2
      · rw [hpm] at h2; cases h2
      · exact h2
    have hegr : egressLoop c eps = .ok (egressFor eps c) := by
      rw [egressLoop_eq, hanyf]
      simp
    have hing : (if en then ingressLoop tag c else .ok []) =
        .ok (if en then ingressFor tag c else ([] : List ingress)) := by
      cases hen : en with
      | false => simp
      | true =>
        subst hen
        simp only [if_pos rfl]
        exact ingressLoop_ok tag c (hpo rfl c (List.mem_cons_self c cs))
    have htail := ih (srcDestLoop c ps v).1
      (fun x hx => hnp x (List.mem_cons_of_mem c hx))
      (fun hen x hx => hpo hen x (List.mem_cons_of_mem c hx))
    have hsv := srcDestLoop_sv c ps v
    have hds := srcDestLoop_dests c ps v
    simp only [getContainerPoliciesAux, hegr, hing, htail]
    cases hm : (if v.contains c.IP then none else ps.find? fun p => c.AppID == p.Source.ID) with
    | some p =>
      rw [hm] at hsv
      simp only [Prod.mk.injEq] at hsv
      simp only [marksAccum, hm, List.flatMap_cons, hds, hsv.1, hsv.2]
      cases en <;> simp
    | none =>
      rw [hm] at hsv
      simp only [Prod.mk.injEq] at hsv
      simp only [marksAccum, hm, List.flatMap_cons, hds, hsv.1, hsv.2]
      cases en <;> simp

theorem noPanicFor_iff (eps : List egressPolicy) (c : container) :
    noPanicFor eps c = true ↔
      (eps.any fun ep => egressPairMatches c ep && ep.Destination.IPRanges.isEmpty) = false := by
  unfold noPanicFor
  rw [List.all_eq_true, List.any_eq_false]
  constructor
  · intro h ep hep
    have h2 := h ep hep
    simp at h2 ⊢
    intro hpm
    rcases h2 with h2 | h2
    · rw [hpm] at h2; cases h2
    · exact h2
  · intro h ep hep
    have h2 := h ep hep
    simp at h2 ⊢
    by_cases hpm : egressPairMatches c ep = true
    · exact Or.inr (h2 hpm)
    · exact Or.inl (by simpa using hpm)

theorem egressLoop_ok_of_noPanic {eps : List egressPolicy} {c : container}
    (h : noPanicFor eps c = true) : egressLoop c eps = .ok (egressFor eps c) := by
  rw [egressLoop_eq, (noPanicFor_iff eps c).mp h]
  simp

theorem aux_ok_imp (en : Bool) (tag : String) (ps : List policy) (eps : List egressPolicy) :
    ∀ (cs : List container) (v : List String)
      (r : List source × List destination × List egress × List ingress),
      getContainerPoliciesAux en tag ps eps cs v = .ok r →
      (∀ c ∈ cs, noPanicFor eps c = true) ∧ (en = true → ∀ c ∈ cs, portsOk c = true) := by
  intro cs
  induction cs with
  | nil =>
    intro v r _
    exact ⟨fun c hc => absurd hc (List.not_mem_nil c),
      fun _ c hc => absurd hc (List.not_mem_nil c)⟩
  | cons c cs ih =>
    intro v r hok
    simp only [getContainerPoliciesAux] at hok
    cases hegr : egressLoop c eps with
    | error e => rw [hegr] at hok; simp at hok
    | ok es =>
      rw [hegr] at hok
      have hnpc : noPanicFor eps c = true := by
        rw [noPanicFor_iff]
        rw [egressLoop_eq] at hegr
        by_cases hany :
            (eps.any fun ep => egressPairMatches c ep && ep.Destination.IPRanges.isEmpty) = true
        · rw [if_pos hany] at hegr; cases hegr
        · simpa using hany
      cases hing : (if en then ingressLoop tag c else Except.ok ([] : List ingress)) with
      | error e => rw [hing] at hok; simp at hok
      | ok ins =>
        rw [hing] at hok
        have hpoc : en = true → portsOk c = true := by
          intro hen
          subst hen
          rw [if_pos rfl] at hing
          by_cases hpc : portsOk c = true
          · exact hpc
          · obtain ⟨msg, hmsg⟩ := ingressLoop_err tag c (by simpa using hpc)
            rw [hmsg] at hing
            cases hing
        cases hrest : getContainerPoliciesAux en tag ps eps cs (srcDestLoop c ps v).1 with
        | error e => rw [hrest] at hok; simp at hok
        | ok r2 =>
          obtain ⟨h1, h2⟩ := ih _ _ hrest
          constructor
          · intro x hx
            rcases List.mem_cons.mp hx with hx | hx
            · rw [hx]; exact hnpc
            · exact h1 x hx
          · intro hen x hx
            rcases List.mem_cons.mp hx with hx | hx
            · rw [hx]; exact hpoc hen
            · exact h2 hen x hx

theorem aux_panic (en : Bool) (tag : String) (ps : List policy) (eps : List egressPolicy) :
    ∀ (cs : List container) (v : List String),
      (∃ c ∈ cs, noPanicFor eps c = false) →
      (en = true → ∀ c ∈ cs, portsOk c = true) →
      getContainerPoliciesAux en tag ps eps cs v = .error .indexPanic := by
  intro cs
  induction cs with
  | nil =>
    intro v h _
    obtain ⟨c, hc, -⟩ := h
    cases hc
  | cons c cs ih =>
    intro v hex hpo
    obtain ⟨c0, hc0, hnp0⟩ := hex
    by_cases hnpc : noPanicFor eps c = true
    · have hc0' : c0 ∈ cs := by
        rcases List.mem_cons.mp hc0 with h | h
        · rw [h] at hnp0; rw [hnp0] at hnpc; cases hnpc
        · exact h
      have hegr := egressLoop_ok_of_noPanic hnpc
      have hing : (if en then ingressLoop tag c else Except.ok ([] : List ingress)) =
          .ok (if en then ingressFor tag c else []) := by
        cases hen : en with
        | false => simp
        | true =>
          subst hen
          simp only [if_pos rfl]
          exact ingressLoop_ok tag c (hpo rfl c (List.mem_cons_self c cs))
      have htail := ih (srcDestLoop c ps v).1 ⟨c0, hc0', hnp0⟩
        (fun hen x hx => hpo hen x (List.mem_cons_of_mem c hx))
      simp [getContainerPoliciesAux, hegr, hing, htail]
    · have hegr : egressLoop c eps = .error .indexPanic := by
        rw [egressLoop_eq, if_pos]
        by_cases hany :
            (eps.any fun ep => egressPairMatches c ep && ep.Destination.IPRanges.isEmpty) = true
        · exact hany
        · exact absurd ((noPanicFor_iff eps c).mpr (by simpa using hany)) hnpc
      simp [getContainerPoliciesAux, hegr]

theorem aux_badPort (tag : String) (ps : List policy) (eps : List egressPolicy) :
    ∀ (cs : List container) (v : List String),
      (∀ c ∈ cs, noPanicFor eps c = true) →
      (∃ c ∈ cs, portsOk c = false) →
      ∃ msg, getContainerPoliciesAux true tag ps eps cs v = .error (.goErr msg) := by
  intro cs
  induction cs with
  | nil =>
    intro v _ h
    obtain ⟨c, hc, -⟩ := h
    cases hc
  | cons c cs ih =>
    intro v hnp hex
    obtain ⟨c0, hc0, hpo0⟩ := hex
    have hegr := egressLoop_ok_of_noPanic (hnp c (List.mem_cons_self c cs))
    by_cases hpc : portsOk c = true
    · have hc0' : c0 ∈ cs := by
        rcases List.mem_cons.mp hc0 with h | h
        · rw [h] at hpo0; rw [hpo0] at hpc; cases hpc
        · exact h
      have hing := ingressLoop_ok tag c hpc
      obtain ⟨msg, hmsg⟩ := ih (srcDestLoop c ps v).1
        (fun x hx => hnp x (List.mem_cons_of_mem c hx)) ⟨c0, hc0', hpo0⟩
      exact ⟨msg, by simp [getContainerPoliciesAux, hegr, hing, hmsg]⟩
    · obtain ⟨msg, hmsg⟩ := ingressLoop_err tag c (by simpa using hpc)
      exact ⟨msg, by simp [getContainerPoliciesAux, hegr, hmsg]⟩

theorem find?_eq_head_filter {α : Type} (pred : α → Bool) :
    ∀ l : List α, l.find? pred = (l.filter pred).head? := by
  intro l
  induction l with
  | nil => simp
  | cons a l ih =>
    by_cases h : pred a = true
    · rw [List.find?_cons_of_pos _ h, List.filter_cons, if_pos h, List.head?_cons]
    · rw [List.find?_cons_of_neg _ h, List.filter_cons, if_neg h, ih]

theorem marksAccum_notMem (ps : List policy) : ∀ (cs : List container) (v : List String),
    ∀ s ∈ marksAccum ps cs v, v.contains s.IP = false := by
  intro cs
  induction cs with
  | nil => intro v s hs; simp [marksAccum] at hs
  | cons c cs ih =>
    intro v s hs
    by_cases hv : v.contains c.IP
    · rw [marksAccum, if_pos hv] at hs
      exact ih v s hs
    · rw [marksAccum, if_neg hv] at hs
      cases hfind : ps.find? (fun p => c.AppID == p.Source.ID) with
      | none => rw [hfind] at hs; exact ih v s hs
      | some p =>
        rw [hfind] at hs
        rcases List.mem_cons.mp hs with hs | hs
        · rw [hs]; simpa using hv
        · have h1 := ih (c.IP :: v) s hs
          simp only [List.contains_cons] at h1
          simpa using (Bool.or_eq_false_iff.mp h1).2

theorem marksAccum_nodup (ps : List policy) : ∀ (cs : List container) (v : List String),
    ((marksAccum ps cs v).map (fun s => s.IP)).Nodup := by
  intro cs
  induction cs with
  | nil => intro v; simp [marksAccum]
  | cons c cs ih =>
    intro v
    by_cases hv : v.contains c.IP
    · rw [marksAccum, if_pos hv]; exact ih v
    · rw [marksAccum, if_neg hv]
      cases hfind : ps.find? (fun p => c.AppID == p.Source.ID) with
      | none => exact ih v
      | some p =>
        rw [List.map_cons, List.nodup_cons]
        refine ⟨?_, ih (c.IP :: v)⟩
        intro hmem
        obtain ⟨s, hs, hip⟩ := List.mem_map.mp hmem
        have h1 := marksAccum_notMem ps cs (c.IP :: v) s hs
        rw [hip] at h1
        simp [List.contains_cons] at h1

theorem sourceCandidates_cons (c : container) (cs : List container) (ps : List policy)
    (ip : String) :
    sourceCandidates (c :: cs) ps ip =
      (if c.IP = ip then
        (ps.filter (fun p => c.AppID == p.Source.ID)).map
          (fun p => ⟨ip, p.Source.Tag, p.Source.ID⟩)
      else []) ++ sourceCandidates cs ps ip := by
  simp [sourceCandidates]

theorem marksAccum_head (ps : List policy) : ∀ (cs : List container) (v : List String),
    ∀ s ∈ marksAccum ps cs v, (sourceCandidates cs ps s.IP).head? = some s := by
  intro cs
  induction cs with
  | nil => intro v s hs; simp [marksAccum] at hs
  | cons c cs ih =>
    intro v s hs
    by_cases hv : v.contains c.IP
    · rw [marksAccum, if_pos hv] at hs
      have hne : s.IP ≠ c.IP := by
        have h1 := marksAccum_notMem ps cs v s hs
        intro heq
        rw [heq] at h1
        rw [h1] at hv
        cases hv
      rw [sourceCandidates_cons, if_neg (fun h => hne h.symm), List.nil_append]
      exact ih v s hs
    · rw [marksAccum, if_neg hv] at hs
      cases hfind : ps.find? (fun p => c.AppID == p.Source.ID) with
      | none =>
        rw [hfind] at hs
        have hfil : ps.filter (fun p => c.AppID == p.Source.ID) = [] := by
          rw [find?_eq_head_filter] at hfind
          exact List.head?_eq_none_iff.mp hfind
        by_cases hip : c.IP = s.IP
        · rw [sourceCandidates_cons, if_pos hip, hfil, List.map_nil, List.nil_append]
          exact ih v s hs
        · rw [sourceCandidates_cons, if_neg hip, List.nil_append]
          exact ih v s hs
      | some p =>
        rw [hfind] at hs
        rcases List.mem_cons.mp hs with hs | hs
        · subst hs
          rw [sourceCandidates_cons]
          simp only [if_pos rfl]
          rw [find?_eq_head_filter] at hfind
          cases hfil : ps.filter (fun p => c.AppID == p.Source.ID) with
          | nil => rw [hfil] at hfind; cases hfind
          | cons q qs =>
            rw [hfil] at hfind
            simp only [List.head?_cons, Option.some.injEq] at hfind
            subst hfind
            simp
        · have hne : s.IP ≠ c.IP := by
            have h1 := marksAccum_notMem ps cs (c.IP :: v) s hs
            intro heq
            rw [heq] at h1
            simp [List.contains_cons] at h1
          rw [sourceCandidates_cons, if_neg (fun h => hne h.symm), List.nil_append]
          exact ih (c.IP :: v) s hs

theorem marksAccum_exists (ps : List policy) : ∀ (cs : List container) (v : List String)
    (ip : String), v.contains ip = false → sourceCandidates cs ps ip ≠ [] →
    ∃ s ∈ marksAccum ps cs v, s.IP = ip := by
  intro cs
  induction cs with
  | nil => intro v ip _ h; simp [sourceCandidates] at h
  | cons c cs ih =>
    intro v ip hv hne
    rw [sourceCandidates_cons] at hne
    by_cases hip : c.IP = ip
    · cases hfil : ps.filter (fun p => c.AppID == p.Source.ID) with
      | nil =>
        rw [if_pos hip, hfil, List.map_nil, List.nil_append] at hne
        have hvc : v.contains c.IP = false := by rw [hip]; exact hv
        rw [marksAccum, if_neg (by rw [hvc]; exact Bool.false_ne_true),
          find?_eq_head_filter, hfil]
        exact ih v ip hv hne
      | cons q qs =>
        have hvc : v.contains c.IP = false := by rw [hip]; exact hv
        rw [marksAccum, if_neg (by rw [hvc]; exact Bool.false_ne_true),
          find?_eq_head_filter, hfil]
        simp only [List.head?_cons]
        exact ⟨⟨c.IP, q.Source.Tag, q.Source.ID⟩, List.mem_cons_self _ _, hip⟩
    · rw [if_neg hip, List.nil_append] at hne
      by_cases hvc : v.contains c.IP
      · rw [marksAccum, if_pos hvc]
        exact ih v ip hv hne
      · rw [marksAccum, if_neg hvc]
        cases hfind : ps.find? (fun p => c.AppID == p.Source.ID) with
        | none => exact ih v ip hv hne
        | some p =>
          obtain ⟨s, hs, hsip⟩ := ih (c.IP :: v) ip
            (by
              simp only [List.contains_cons]
              rw [Bool.or_eq_false_iff]
              exact ⟨by simpa using Ne.symm hip, hv⟩) hne
          exact ⟨s, List.mem_cons_of_mem _ hs, hsip⟩

theorem sortDestinations_perm_eq {l l' : List destination} (h : l.Perm l') :
    sortDestinations l = sortDestinations l' := by
  haveI : IsAntisymm destination destinationLe :=
    ⟨fun _ _ h1 h2 => marshalDestination_inj (le_antisymm h1 h2)⟩
  exact List.eq_of_perm_of_sorted
    ((List.perm_insertionSort _ l).trans (h.trans (List.perm_insertionSort _ l').symm))
    (List.sorted_insertionSort _ l) (List.sorted_insertionSort _ l')

theorem sortSources_perm_eq {l l' : List source} (h : l.Perm l') :
    sortSources l = sortSources l' := by
  haveI : IsAntisymm source sourceLe :=
    ⟨fun _ _ h1 h2 => marshalSource_inj (le_antisymm h1 h2)⟩
  exact List.eq_of_perm_of_sorted
    ((List.perm_insertionSort _ l).trans (h.trans (List.perm_insertionSort _ l').symm))
    (List.sorted_insertionSort _ l) (List.sorted_insertionSort _ l')

theorem destsFor_perm {ps ps' : List policy} (h : ps.Perm ps') (c : container) :
    (destsFor ps c).Perm (destsFor ps' c) :=
  (h.filter _).map _

theorem marksAccum_proj {ps ps' : List policy} (h : ps.Perm ps') :
    ∀ (cs : List container) (v : List String),
      (marksAccum ps cs v).map (fun s => (s.IP, s.GUID)) =
        (marksAccum ps' cs v).map (fun s => (s.IP, s.GUID)) := by
  intro cs
  induction cs with
  | nil => intro v; simp [marksAccum]
  | cons c cs ih =>
    intro v
    by_cases hv : v.contains c.IP
    · rw [marksAccum, marksAccum, if_pos hv, if_pos hv]
      exact ih v
    · rw [marksAccum, marksAccum, if_neg hv, if_neg hv]
      cases hf1 : ps.find? (fun p => c.AppID == p.Source.ID) with
      | none =>
        cases hf2 : ps'.find? (fun p => c.AppID == p.Source.ID) with
        | none => exact ih v
        | some p2 =>
          exfalso
          have hp2 := @List.find?_some _ _ _ _ hf2
          have h3 : ps.find? (fun p => c.AppID == p.Source.ID) ≠ none := by
            rw [Ne, List.find?_eq_none]
            push_neg
            exact ⟨p2, h.mem_iff.mpr (List.mem_of_find?_eq_some hf2), hp2⟩
          exact h3 hf1
      | some p1 =>
        cases hf2 : ps'.find? (fun p => c.AppID == p.Source.ID) with
        | none =>
          exfalso
          have hp1 := @List.find?_some _ _ _ _ hf1
          have h3 : ps'.find? (fun p => c.AppID == p.Source.ID) ≠ none := by
            rw [Ne, List.find?_eq_none]
            push_neg
            exact ⟨p1, h.mem_iff.mp (List.mem_of_find?_eq_some hf1), hp1⟩
          exact h3 hf2
        | some p2 =>
          have hg1 : p1.Source.ID = c.AppID := by
            have hp1 := @List.find?_some _ _ _ _ hf1
            simp only [beq_iff_eq] at hp1
            exact hp1.symm
          have hg2 : p2.Source.ID = c.AppID := by
            have hp2 := @List.find?_some _ _ _ _ hf2
            simp only [beq_iff_eq] at hp2
            exact hp2.symm
          rw [List.map_cons, List.map_cons, ih (c.IP :: v)]
          simp [hg1, hg2]

theorem aux_error_iff (en : Bool) (tag : String) (eps : List egressPolicy)
    (ps ps' : List policy) :
    ∀ (cs : List container) (v v' : List String) (e : RErr),
      getContainerPoliciesAux en tag ps eps cs v = .error e ↔
        getContainerPoliciesAux en tag ps' eps cs v' = .error e := by
  intro cs
  induction cs with
  | nil => intro v v' e; simp [getContainerPoliciesAux]
  | cons c cs ih =>
    intro v v' e
    simp only [getContainerPoliciesAux]
    cases hegr : egressLoop c eps with
    | error e2 => simp
    | ok es =>
      cases hing : (if en then ingressLoop tag c else Except.ok ([] : List ingress)) with
      | error e2 => simp
      | ok ins =>
        constructor
        · intro hh
          cases h1 : getContainerPoliciesAux en tag ps eps cs (srcDestLoop c ps v).1 with
          | error e3 =>
            rw [h1] at hh
            simp at hh
            subst hh
            rw [(ih (srcDestLoop c ps v).1 (srcDestLoop c ps' v').1 e3).mp h1]
          | ok r2 =>
            rw [h1] at hh
            simp at hh
        · intro hh
          cases h1 : getContainerPoliciesAux en tag ps' eps cs (srcDestLoop c ps' v').1 with
          | error e3 =>
            rw [h1] at hh
            simp at hh
            subst hh
            rw [(ih (srcDestLoop c ps v).1 (srcDestLoop c ps' v').1 e3).mpr h1]
          | ok r2 =>
            rw [h1] at hh
            simp at hh

theorem egressLoop_err_kind {c : container} {eps : List egressPolicy} {e : RErr}
    (h : egressLoop c eps = .error e) : e = .indexPanic := by
  rw [egressLoop_eq] at h
  by_cases hany :
      (eps.any fun ep => egressPairMatches c ep && ep.Destination.IPRanges.isEmpty) = true
  · rw [if_pos hany] at h
    cases h
    rfl
  · rw [if_neg hany] at h
    cases h

theorem aux_goErr_none (tag : String) (ps : List policy) (eps : List egressPolicy) :
    ∀ (cs : List container) (v : List String) (msg : String),
      getContainerPoliciesAux false tag ps eps cs v ≠ .error (.goErr msg) := by
  intro cs
  induction cs with
  | nil => intro v msg h; simp [getContainerPoliciesAux] at h
  | cons c cs ih =>
    intro v msg h
    simp only [getContainerPoliciesAux] at h
    cases hegr : egressLoop c eps with
    | error e =>
      rw [hegr] at h
      have := egressLoop_err_kind hegr
      subst this
      simp at h
    | ok es =>
      rw [hegr] at h
      simp only [Bool.false_eq_true, if_false] at h
      cases hrest : getContainerPoliciesAux false tag ps eps cs (srcDestLoop c ps v).1 with
      | error e =>
        rw [hrest] at h
        simp at h
        rw [h] at hrest
        exact ih _ msg hrest
      | ok r2 =>
        rw [hrest] at h
        simp at h

theorem aux_panic_imp (en : Bool) (tag : String) (ps : List policy)
    (eps : List egressPolicy) :
    ∀ (cs : List container) (v : List String),
      getContainerPoliciesAux en tag ps eps cs v = .error .indexPanic →
      ∃ c ∈ cs, noPanicFor eps c = false := by
  intro cs
  induction cs with
  | nil => intro v h; simp [getContainerPoliciesAux] at h
  | cons c cs ih =>
    intro v h
    simp only [getContainerPoliciesAux] at h
    cases hegr : egressLoop c eps with
    | error e =>
      refine ⟨c, List.mem_cons_self c cs, ?_⟩
      rw [egressLoop_eq] at hegr
      by_cases hany :
          (eps.any fun ep => egressPairMatches c ep && ep.Destination.IPRanges.isEmpty) = true
      · rw [Bool.eq_false_iff]
        intro hnp
        rw [(noPanicFor_iff eps c).mp hnp] at hany
        cases hany
      · rw [if_neg hany] at hegr
        cases hegr
    | ok es =>
      rw [hegr] at h
      cases hing : (if en then ingressLoop tag c else Except.ok ([] : List ingress)) with
      | error e =>
        rw [hing] at h
        simp at h
        exfalso
        cases hen : en with
        | false => rw [hen] at hing; simp at hing
        | true =>
          rw [hen, if_pos rfl] at hing
          obtain ⟨⟨msg, hmsg⟩, -⟩ := ingressLoop_err_kind tag c e hing
          rw [hmsg] at h
          cases h
      | ok ins =>
        rw [hing] at h
        cases hrest : getContainerPoliciesAux en tag ps eps cs (srcDestLoop c ps v).1 with
        | error e =>
          rw [hrest] at h
          simp at h
          rw [h] at hrest
          obtain ⟨x, hx, hnp⟩ := ih _ hrest
          exact ⟨x, List.mem_cons_of_mem c hx, hnp⟩
        | ok r2 =>
          rw [hrest] at h
          simp at h

theorem portsOk_false_of_bad {c : container} {piece : List Char}
    (hne : c.Ports ≠ "") (hmem : piece ∈ splitComma c.Ports.data)
    (hbad : atoiGo (goTrimSpace (String.mk piece)) = none) : portsOk c = false := by
  unfold portsOk
  rw [Bool.or_eq_false_iff]
  constructor
  · simpa using hne
  · rw [List.all_eq_false]
    exact ⟨piece, hmem, by rw [hbad]; simp⟩

theorem noPanicFor_false_iff (eps : List egressPolicy) (c : container) :
    noPanicFor eps c = false ↔
      ∃ ep ∈ eps, egressPairMatches c ep = true ∧ ep.Destination.IPRanges = [] := by
  constructor
  · intro h
    unfold noPanicFor at h
    rw [List.all_eq_false] at h
    obtain ⟨ep, hep, hx⟩ := h
    refine ⟨ep, hep, ?_⟩
    simp at hx
    exact ⟨hx.1, by simpa using hx.2⟩
  · intro ⟨ep, hep, h1, h2⟩
    unfold noPanicFor
    rw [List.all_eq_false]
    exact ⟨ep, hep, by simp [h1, h2]⟩

theorem egressPairMatches_iff (c : container) (ep : egressPolicy) :
    egressPairMatches c ep = true ↔ (specSourceScope ep c ∧ specLifecycleGate ep c) := by
  unfold egressPairMatches egressSourceMatches containerPurposeMatchesAppLifecycle
    specSourceScope specLifecycleGate
  simp only [Bool.and_eq_true, Bool.or_eq_true, beq_iff_eq]
  constructor
  · intro ⟨h1, h2⟩
    constructor
    · rcases h1 with (h | h) | h
      · exact Or.inl h
      · exact Or.inr (Or.inl ⟨h.2, h.1⟩)
      · exact Or.inr (Or.inr h)
    · rcases h2 with ((h | h) | h) | h
      · exact Or.inl h
      · exact Or.inr (Or.inl h)
      · exact Or.inr (Or.inr (Or.inl ⟨h.1, h.2⟩))
      · exact Or.inr (Or.inr (Or.inr ⟨h.1, h.2⟩))
  · intro ⟨h1, h2⟩
    constructor
    · rcases h1 with h | ⟨h1, h2'⟩ | h
      · exact Or.inl (Or.inl h)
      · exact Or.inl (Or.inr ⟨h2', h1⟩)
      · exact Or.inr h
    · rcases h2 with h | h | ⟨ha, hb⟩ | ⟨ha, hb⟩
      · exact Or.inl (Or.inl (Or.inl h))
      · exact Or.inl (Or.inl (Or.inr h))
      · exact Or.inl (Or.inr ⟨ha, hb⟩)
      · exact Or.inr ⟨ha, hb⟩

theorem gcp_ok_form {ps : List policy} {eps : List egressPolicy} {tag : String}
    {cs : List container} {en : Bool} {r : containerPolicySet}
    (h : getContainerPolicies ps eps tag cs en = .ok r) :
    r = ⟨sortSources (marksAccum ps cs []),
      sortDestinations (cs.flatMap (destsFor ps)),
      sortIngresses (if en then cs.flatMap (ingressFor tag) else []),
      sortEgresses (cs.flatMap (egressFor eps))⟩ ∧
    (∀ c ∈ cs, noPanicFor eps c = true) ∧ (en = true → ∀ c ∈ cs, portsOk c = true) := by
  unfold getContainerPolicies at h
  cases haux : getContainerPoliciesAux en tag ps eps cs [] with
  | error e => rw [haux] at h; cases h
  | ok r0 =>
    rw [haux] at h
    injection h with h
    obtain ⟨h1, h2⟩ := aux_ok_imp en tag ps eps cs [] r0 haux
    have hcanon := aux_ok en tag ps eps cs [] h1 h2
    rw [haux] at hcanon
    injection hcanon with hcanon
    subst hcanon
    exact ⟨h.symm, h1, h2⟩

theorem egressPairMatches_eq_decide (c : container) (ep : egressPolicy) :
    egressPairMatches c ep = decide (specSourceScope ep c ∧ specLifecycleGate ep c) := by
  by_cases hP : (specSourceScope ep c ∧ specLifecycleGate ep c)
  · rw [(egressPairMatches_iff c ep).mpr hP, decide_eq_true hP]
  · rw [decide_eq_false hP]
    rw [Bool.eq_false_iff]
    intro hc
    exact hP ((egressPairMatches_iff c ep).mp hc)

/-- C5: for every successful resolution pass, each distinct container IP
appears in at most one SourceMark; the mark emitted for an IP is exactly the
first (container, policy) source match encountered in iteration order (its
Tag and GUID come from that first matching policy), every IP with at least
one source match gets a mark, and DestinationAllows are never deduplicated:
the Destination sequence is exactly one tuple per destination match. -/
theorem c5_source_dedup_first_match (ps : List policy) (eps : List egressPolicy)
    (tag : String) (cs : List container) (en : Bool) (r : containerPolicySet)
    (h : getContainerPolicies ps eps tag cs en = .ok r) :
    (r.Source.map (fun s => s.IP)).Nodup ∧
    (∀ s ∈ r.Source, (sourceCandidates cs ps s.IP).head? = some s) ∧
    (∀ ip : String, sourceCandidates cs ps ip ≠ [] → ∃ s ∈ r.Source, s.IP = ip) ∧
    r.Destination.Perm (cs.flatMap (destsFor ps)) := by
  obtain ⟨hr, -, -⟩ := gcp_ok_form h
  subst hr
  refine ⟨?_, ?_, ?_, ?_⟩
  · have hperm : (sortSources (marksAccum ps cs [])).Perm (marksAccum ps cs []) :=
      List.perm_insertionSort _ _
    exact ((hperm.map _).nodup_iff).mpr (marksAccum_nodup ps cs [])
  · intro s hs
    exact marksAccum_head ps cs [] s ((List.perm_insertionSort _ _).subset hs)
  · intro ip hne
    obtain ⟨s, hs, hip⟩ := marksAccum_exists ps cs [] ip rfl hne
    exact ⟨s, ((List.perm_insertionSort _ _).mem_iff).mpr hs, hip⟩
  · exact List.perm_insertionSort _ _

theorem c5_witness :
    (([⟨"10.255.0.1", "42", "A"⟩] : List source).map (fun s => s.IP)).Nodup ∧
    (sourceCandidates [cEx] [pEx, pEx2] "10.255.0.1").head? =
      some ⟨"10.255.0.1", "42", "A"⟩ ∧
    (∃ s ∈ (containerPolicySet.mk [⟨"10.255.0.1", "42", "A"⟩] [] [] []).Source,
      s.IP = "10.255.0.1") ∧
    (containerPolicySet.mk [⟨"10.255.0.1", "42", "A"⟩] [] [] []).Destination.Perm
      ([cEx].flatMap (destsFor [pEx, pEx2])) := by
  have H := c5_source_dedup_first_match [pEx, pEx2] [] "" [cEx] false
    (containerPolicySet.mk [⟨"10.255.0.1", "42", "A"⟩] [] [] []) (by decide)
  exact ⟨H.1, H.2.1 ⟨"10.255.0.1", "42", "A"⟩ (by decide),
    H.2.2.1 "10.255.0.1" (by decide), H.2.2.2⟩

/-- C7: for every successful resolution, the Egress sequence consists of
exactly one tuple per (container, egress-policy) pair satisfying both the
spec's source-scope predicate and its lifecycle gate — and of nothing else. -/
theorem c7_egress_predicates (ps : List policy) (eps : List egressPolicy)
    (tag : String) (cs : List container) (en : Bool) (r : containerPolicySet)
    (h : getContainerPolicies ps eps tag cs en = .ok r) :
    r.Egress.Perm (cs.flatMap (fun c =>
      (eps.filter (fun ep => decide (specSourceScope ep c ∧ specLifecycleGate ep c))).map
        (mkEgress c))) := by
  obtain ⟨hr, -, -⟩ := gcp_ok_form h
  subst hr
  have hfe : ∀ c : container,
      egressFor eps c =
        (eps.filter (fun ep => decide (specSourceScope ep c ∧ specLifecycleGate ep c))).map
          (mkEgress c) := by
    intro c
    unfold egressFor
    congr 1
    exact List.filter_congr (fun ep _ => egressPairMatches_eq_decide c ep)
  have hfun : egressFor eps = fun c =>
      (eps.filter (fun ep => decide (specSourceScope ep c ∧ specLifecycleGate ep c))).map
        (mkEgress c) := funext hfe
  show (sortEgresses (cs.flatMap (egressFor eps))).Perm _
  rw [hfun]
  exact List.perm_insertionSort _ _

theorem c7_witness :
    (containerPolicySet.mk [] [] []
      [⟨"10.255.0.1", "tcp", "1.2.3.4", "1.2.3.8", 0, 0, 80, 81⟩]).Egress.Perm
      ([cEx].flatMap (fun c =>
        (([epEx]).filter
          (fun ep => decide (specSourceScope ep c ∧ specLifecycleGate ep c))).map
          (mkEgress c))) :=
  c7_egress_predicates [] [epEx] "" [cEx] false _ (by decide)

/-- C10: egress resolution is total only under the precondition that every
egress policy matching some container has at least one IP range: under the
precondition no resolution pass aborts abnormally, while a matching policy
with an empty IPRanges list makes the pass abort abnormally (modelled as
`indexPanic`, the unchecked `IPRanges[0]` read) whenever no earlier ingress
error preempts it; an empty Ports list, in contrast, is handled and produces
PortStart = PortEnd = 0. -/
theorem c10_egress_totality (ps : List policy) (eps : List egressPolicy) (tag : String)
    (cs : List container) (en : Bool) :
    ((∀ c ∈ cs, ∀ ep ∈ eps, egressPairMatches c ep = true →
        ep.Destination.IPRanges ≠ []) →
      getContainerPolicies ps eps tag cs en ≠ .error .indexPanic) ∧
    ((∃ c ∈ cs, ∃ ep ∈ eps, egressPairMatches c ep = true ∧
        ep.Destination.IPRanges = []) →
      (en = true → ∀ c ∈ cs, portsOk c = true) →
      getContainerPolicies ps eps tag cs en = .error .indexPanic) ∧
    (∀ (c : container) (ep : egressPolicy), ep.Destination.Ports = [] →
      (mkEgress c ep).PortStart = 0 ∧ (mkEgress c ep).PortEnd = 0) := by
  refine ⟨?_, ?_, ?_⟩
  · intro hpre h
    unfold getContainerPolicies at h
    cases haux : getContainerPoliciesAux en tag ps eps cs [] with
    | error e =>
      rw [haux] at h
      injection h with h
      subst h
      obtain ⟨c, hc, hnp⟩ := aux_panic_imp en tag ps eps cs [] haux
      obtain ⟨ep, hep, hm, hr⟩ := (noPanicFor_false_iff eps c).mp hnp
      exact hpre c hc ep hep hm hr
    | ok r0 => rw [haux] at h; cases h
  · intro hex hports
    obtain ⟨c, hc, ep, hep, hm, hr⟩ := hex
    have hnp : ∃ c ∈ cs, noPanicFor eps c = false :=
      ⟨c, hc, (noPanicFor_false_iff eps c).mpr ⟨ep, hep, hm, hr⟩⟩
    have := aux_panic en tag ps eps cs [] hnp hports
    unfold getContainerPolicies
    rw [this]
  · intro c ep hports
    simp [mkEgress, hports]

theorem c10_witness :
    getContainerPolicies [] [epExBad] "" [cEx] false = .error .indexPanic ∧
    (mkEgress cEx epExBad).PortStart = 0 ∧ (mkEgress cEx epExBad).PortEnd = 0 :=
  ⟨(c10_egress_totality [] [epExBad] "" [cEx] false).2.1
      ⟨cEx, by decide, epExBad, by decide, by decide, by decide⟩
      (fun hf => by cases hf),
    (c10_egress_totality [] [epExBad] "" [cEx] false).2.2 cEx epExBad (by decide)⟩

/-- C8: with ingress enforcement enabled and a non-empty Ports string, each
comma piece is trimmed and parsed; a failing piece prevents the resolution
pass from succeeding at all (and, when no egress panic preempts it, the pass
returns the conversion error, which `GetRulesAndChain` propagates unchanged,
so no partial ingress sequence reaches the caller); on success every piece
contributes exactly one IngressRule with protocol "tcp" and the shared tag;
with enforcement disabled the Ingress sequence is empty and no conversion
error is ever raised. -/
theorem c8_ingress_fail_whole (ps : List policy) (eps : List egressPolicy)
    (tag : String) (cs : List container) :
    (∀ (c0 : container) (piece : List Char), c0 ∈ cs → c0.Ports ≠ "" →
      piece ∈ splitComma c0.Ports.data → atoiGo (goTrimSpace (String.mk piece)) = none →
      (∀ r, getContainerPolicies ps eps tag cs true ≠ .ok r) ∧
      ((∀ c ∈ cs, noPanicFor eps c = true) →
        ∃ msg, getContainerPolicies ps eps tag cs true = .error (.goErr msg) ∧
          ∀ (chain : String) (lg : Bool) (alps : Int) (ifaces : List String),
            getRulesAndChain chain lg alps ifaces ps eps tag cs true =
              .error (.goErr msg))) ∧
    (∀ r, getContainerPolicies ps eps tag cs true = .ok r →
      r.Ingress.Perm (cs.flatMap (ingressFor tag))) ∧
    (∀ r, getContainerPolicies ps eps tag cs false = .ok r → r.Ingress = []) ∧
    (∀ msg, getContainerPolicies ps eps tag cs false ≠ .error (.goErr msg)) := by
  refine ⟨?_, ?_, ?_, ?_⟩
  · intro c0 piece hc0 hne hmem hbad
    have hbadPort : portsOk c0 = false := portsOk_false_of_bad hne hmem hbad
    constructor
    · intro r hok
      obtain ⟨-, -, hports⟩ := gcp_ok_form hok
      rw [hports rfl c0 hc0] at hbadPort
      cases hbadPort
    · intro hnp
      obtain ⟨msg, hmsg⟩ := aux_badPort tag ps eps cs [] hnp ⟨c0, hc0, hbadPort⟩
      refine ⟨msg, ?_, ?_⟩
      · unfold getContainerPolicies
        rw [hmsg]
      · intro chain lg alps ifaces
        unfold getRulesAndChain getContainerPolicies
        rw [hmsg]
  · intro r hok
    obtain ⟨hr, -, -⟩ := gcp_ok_form hok
    subst hr
    show (sortIngresses _).Perm _
    rw [if_pos rfl]
    exact List.perm_insertionSort _ _
  · intro r hok
    obtain ⟨hr, -, -⟩ := gcp_ok_form hok
    subst hr
    show sortIngresses _ = _
    rw [if_neg (by simp)]
    rfl
  · intro msg h
    unfold getContainerPolicies at h
    cases haux : getContainerPoliciesAux false tag ps eps cs [] with
    | error e =>
      rw [haux] at h
      injection h with h
      rw [h] at haux
      exact aux_goErr_none tag ps eps cs [] msg haux
    | ok r0 => rw [haux] at h; cases h

theorem c8_witness :
    getContainerPolicies [pEx] [] "tag-1" [cExBadPort] true ≠
      .ok (containerPolicySet.mk [] [] [] []) ∧
    (∃ msg, getContainerPolicies [pEx] [] "tag-1" [cExBadPort] true =
      .error (.goErr msg)) := by
  have H := (c8_ingress_fail_whole [pEx] [] "tag-1" [cExBadPort]).1 cExBadPort
    ['a', 'b', 'c'] (by decide) (by decide) (by decide) (by decide)
  obtain ⟨msg, hmsg, -⟩ := H.2 (by decide)
  exact ⟨H.1 _, ⟨msg, hmsg⟩⟩

theorem gcp_error_iff (ps : List policy) (eps : List egressPolicy) (tag : String)
    (cs : List container) (en : Bool) (e : RErr) :
    getContainerPolicies ps eps tag cs en = .error e ↔
      getContainerPoliciesAux en tag ps eps cs [] = .error e := by
  unfold getContainerPolicies
  cases haux : getContainerPoliciesAux en tag ps eps cs [] with
  | error e1 => simp
  | ok r0 => simp

/-- C1 (amended): permuting the input policy list leaves the error behavior
and the sorted Destination, Egress and Ingress sequences unchanged, and every
SourceMark keeps its IP and its GUID (the multiset of (IP, GUID) pairs is
invariant); but the Tag carried by a SourceMark is first-match-wins over the
input order, so the Source sequence itself is not order-independent. -/
theorem c1_order_independence_amended (ps ps' : List policy) (hperm : ps.Perm ps')
    (eps : List egressPolicy) (tag : String) (cs : List container) (en : Bool) :
    (∀ e, getContainerPolicies ps eps tag cs en = .error e ↔
      getContainerPolicies ps' eps tag cs en = .error e) ∧
    (∀ r r', getContainerPolicies ps eps tag cs en = .ok r →
      getContainerPolicies ps' eps tag cs en = .ok r' →
      r.Destination = r'.Destination ∧ r.Egress = r'.Egress ∧ r.Ingress = r'.Ingress ∧
      (r.Source.map (fun s => (s.IP, s.GUID))).Perm
        (r'.Source.map (fun s => (s.IP, s.GUID)))) := by
  constructor
  · intro e
    exact (gcp_error_iff ps eps tag cs en e).trans
      ((aux_error_iff en tag eps ps ps' cs [] [] e).trans
        (gcp_error_iff ps' eps tag cs en e).symm)
  · intro r r' hok hok'
    obtain ⟨hr, -, -⟩ := gcp_ok_form hok
    obtain ⟨hr', -, -⟩ := gcp_ok_form hok'
    subst hr
    subst hr'
    refine ⟨?_, rfl, rfl, ?_⟩
    · show sortDestinations _ = sortDestinations _
      exact sortDestinations_perm_eq
        (List.Perm.flatMap_left cs (fun c _ => destsFor_perm hperm c))
    · show ((sortSources (marksAccum ps cs [])).map (fun s => (s.IP, s.GUID))).Perm
        ((sortSources (marksAccum ps' cs [])).map (fun s => (s.IP, s.GUID)))
      have h1 : ((sortSources (marksAccum ps cs [])).map (fun s => (s.IP, s.GUID))).Perm
          ((marksAccum ps cs []).map (fun s => (s.IP, s.GUID))) :=
        (List.perm_insertionSort _ _).map _
      have h3 : ((sortSources (marksAccum ps' cs [])).map (fun s => (s.IP, s.GUID))).Perm
          ((marksAccum ps' cs []).map (fun s => (s.IP, s.GUID))) :=
        (List.perm_insertionSort _ _).map _
      refine h1.trans ?_
      rw [marksAccum_proj hperm cs []]
      exact h3.symm

theorem c1_counterexample :
    getContainerPolicies [pEx, pEx2] [] "" [cEx] false ≠
      getContainerPolicies [pEx2, pEx] [] "" [cEx] false := by decide

theorem c1_witness :
    (containerPolicySet.mk [⟨"10.255.0.1", "42", "A"⟩] [] [] []).Destination =
      (containerPolicySet.mk [⟨"10.255.0.1", "43", "A"⟩] [] [] []).Destination ∧
    (containerPolicySet.mk [⟨"10.255.0.1", "42", "A"⟩] [] [] []).Egress =
      (containerPolicySet.mk [⟨"10.255.0.1", "43", "A"⟩] [] [] []).Egress ∧
    (containerPolicySet.mk [⟨"10.255.0.1", "42", "A"⟩] [] [] []).Ingress =
      (containerPolicySet.mk [⟨"10.255.0.1", "43", "A"⟩] [] [] []).Ingress ∧
    ((containerPolicySet.mk [⟨"10.255.0.1", "42", "A"⟩] [] [] []).Source.map
      (fun s => (s.IP, s.GUID))).Perm
      ((containerPolicySet.mk [⟨"10.255.0.1", "43", "A"⟩] [] [] []).Source.map
        (fun s => (s.IP, s.GUID))) :=
  (c1_order_independence_amended [pEx, pEx2] [pEx2, pEx] (List.Perm.swap pEx2 pEx [])
    [] "" [cEx] false).2
    (containerPolicySet.mk [⟨"10.255.0.1", "42", "A"⟩] [] [] [])
    (containerPolicySet.mk [⟨"10.255.0.1", "43", "A"⟩] [] [] [])
    (by decide) (by decide)

/-- C2 (amended): each of the four sequences is sorted by lexicographic
byte-comparison of the tuples' json.Marshal serializations (fields serialized
in their declared order); because that serialization is injective on these
struct types, each comparator is a strict total order — trichotomous and
asymmetric, so the comparison never fails for any pair — and each sort emits
a permutation of its input sorted by the corresponding order; however,
integer fields such as StartPort/EndPort are ordered as decimal strings
through the serialization, not numerically. -/
theorem c2_comparators_amended :
    (∀ a b : source, (sourceLess a b ∨ sourceLess b a ∨ a = b) ∧
      ¬(sourceLess a b ∧ sourceLess b a)) ∧
    (∀ a b : destination, (destinationLess a b ∨ destinationLess b a ∨ a = b) ∧
      ¬(destinationLess a b ∧ destinationLess b a)) ∧
    (∀ a b : egress, (egressLess a b ∨ egressLess b a ∨ a = b) ∧
      ¬(egressLess a b ∧ egressLess b a)) ∧
    (∀ a b : ingress, (ingressLess a b ∨ ingressLess b a ∨ a = b) ∧
      ¬(ingressLess a b ∧ ingressLess b a)) ∧
    (∀ l : List source, (sortSources l).Sorted sourceLe ∧ (sortSources l).Perm l) ∧
    (∀ l : List destination,
      (sortDestinations l).Sorted destinationLe ∧ (sortDestinations l).Perm l) ∧
    (∀ l : List egress, (sortEgresses l).Sorted egressLe ∧ (sortEgresses l).Perm l) ∧
    (∀ l : List ingress, (sortIngresses l).Sorted ingressLe ∧ (sortIngresses l).Perm l) := by
  refine ⟨?_, ?_, ?_, ?_, ?_, ?_, ?_, ?_⟩
  · intro a b
    constructor
    · rcases lt_trichotomy (marshalSource a) (marshalSource b) with h | h | h
      · exact Or.inl h
      · exact Or.inr (Or.inr (marshalSource_inj h))
      · exact Or.inr (Or.inl h)
    · intro ⟨h1, h2⟩
      exact lt_asymm h1 h2
  · intro a b
    constructor
    · rcases lt_trichotomy (marshalDestination a) (marshalDestination b) with h | h | h
      · exact Or.inl h
      · exact Or.inr (Or.inr (marshalDestination_inj h))
      · exact Or.inr (Or.inl h)
    · intro ⟨h1, h2⟩
      exact lt_asymm h1 h2
  · intro a b
    constructor
    · rcases lt_trichotomy (marshalEgress a) (marshalEgress b) with h | h | h
      · exact Or.inl h
      · exact Or.inr (Or.inr (marshalEgress_inj h))
      · exact Or.inr (Or.inl h)
    · intro ⟨h1, h2⟩
      exact lt_asymm h1 h2
  · intro a b
    constructor
    · rcases lt_trichotomy (marshalIngress a) (marshalIngress b) with h | h | h
      · exact Or.inl h
      · exact Or.inr (Or.inr (marshalIngress_inj h))
      · exact Or.inr (Or.inl h)
    · intro ⟨h1, h2⟩
      exact lt_asymm h1 h2
  · exact fun l => ⟨List.sorted_insertionSort _ l, List.perm_insertionSort _ l⟩
  · exact fun l => ⟨List.sorted_insertionSort _ l, List.perm_insertionSort _ l⟩
  · exact fun l => ⟨List.sorted_insertionSort _ l, List.perm_insertionSort _ l⟩
  · exact fun l => ⟨List.sorted_insertionSort _ l, List.perm_insertionSort _ l⟩

theorem c2_counterexample :
    destinationLess (⟨"10.0.0.1", 10, 10, "B", "A", "tcp", "42"⟩ : destination)
      ⟨"10.0.0.1", 9, 9, "B", "A", "tcp", "42"⟩ ∧
    (9 : Int) < 10 ∧
    sortDestinations [⟨"10.0.0.1", 9, 9, "B", "A", "tcp", "42"⟩,
        ⟨"10.0.0.1", 10, 10, "B", "A", "tcp", "42"⟩] =
      [⟨"10.0.0.1", 10, 10, "B", "A", "tcp", "42"⟩,
        ⟨"10.0.0.1", 9, 9, "B", "A", "tcp", "42"⟩] := by
  refine ⟨by decide, by decide, by decide⟩

theorem bitlenAux_zero : ∀ f, bitlenAux f 0 = 0 := by
  intro f
  cases f <;> simp [bitlenAux]

theorem bitlenAux_spec : ∀ (f n : Nat), 0 < n → n < 2 ^ f →
    2 ^ (bitlenAux f n - 1) ≤ n ∧ n < 2 ^ bitlenAux f n := by
  intro f
  induction f with
  | zero => intro n h0 h1; omega
  | succ f ih =>
    intro n h0 h1
    rw [bitlenAux, if_neg (by omega)]
    by_cases h2 : n / 2 = 0
    · have hn1 : n = 1 := by omega
      subst hn1
      rw [h2, bitlenAux_zero]
      omega
    · have hrec := ih (n / 2) (by omega) (by rw [pow_succ] at h1; omega)
      set L := bitlenAux f (n / 2) with hL
      have hL1 : 1 ≤ L := by
        rcases Nat.eq_zero_or_pos L with h | h
        · rw [h] at hrec; simp at hrec; omega
        · exact h
      constructor
      · have : 2 ^ (L - 1) ≤ n / 2 := hrec.1
        calc 2 ^ (L + 1 - 1) = 2 * 2 ^ (L - 1) := by
              rw [← pow_succ']
              congr 1
              omega
          _ ≤ 2 * (n / 2) := by omega
          _ ≤ n := by omega
      · have : n / 2 < 2 ^ L := hrec.2
        calc n < 2 * (n / 2) + 2 := by omega
          _ ≤ 2 * 2 ^ L := by omega
          _ = 2 ^ (L + 1) := (pow_succ' 2 L).symm

theorem bitlen_spec (n : Nat) (h : 0 < n) :
    2 ^ (bitlen n - 1) ≤ n ∧ n < 2 ^ bitlen n :=
  bitlenAux_spec (n + 1) n h (by
    calc n < 2 ^ n := Nat.lt_two_pow n
    _ ≤ 2 ^ (n + 1) := Nat.pow_le_pow_right (by norm_num) (Nat.le_succ n))

theorem bitlen_pos (n : Nat) (h : 0 < n) : 1 ≤ bitlen n := by
  rcases Nat.eq_zero_or_pos (bitlen n) with h1 | h1
  · have := (bitlen_spec n h).2
    rw [h1] at this
    omega
  · exact h1

theorem pow2LE_iff (a b : Nat) (hb : 0 < b) (e : Int) :
    pow2LE b a e = true ↔ (2 : ℚ) ^ e ≤ (a : ℚ) / (b : ℚ) := by
  have hbq : (0 : ℚ) < (b : ℚ) := by exact_mod_cast hb
  unfold pow2LE
  by_cases he : 0 ≤ e
  · rw [if_pos he, decide_eq_true_eq, le_div_iff₀ hbq]
    have h2 : (2 : ℚ) ^ e = (2 : ℚ) ^ e.toNat := by
      rw [← zpow_natCast (2 : ℚ) e.toNat, Int.toNat_of_nonneg he]
    rw [h2]
    constructor
    · intro h
      calc (2 : ℚ) ^ e.toNat * (b : ℚ) = ((b * 2 ^ e.toNat : Nat) : ℚ) := by push_cast; ring
        _ ≤ (a : ℚ) := by exact_mod_cast h
    · intro h
      have h3 : ((b * 2 ^ e.toNat : Nat) : ℚ) ≤ (a : ℚ) := by
        calc ((b * 2 ^ e.toNat : Nat) : ℚ) = (2 : ℚ) ^ e.toNat * (b : ℚ) := by push_cast; ring
          _ ≤ (a : ℚ) := h
      exact_mod_cast h3
  · rw [if_neg he, decide_eq_true_eq]
    have hme : 0 ≤ -e := by omega
    have h2 : (2 : ℚ) ^ e = 1 / (2 : ℚ) ^ (-e).toNat := by
      rw [← zpow_natCast (2 : ℚ) (-e).toNat, Int.toNat_of_nonneg hme, one_div, ← zpow_neg,
        neg_neg]
    rw [h2, div_le_div_iff (by positivity) hbq, one_mul]
    constructor
    · intro h
      calc (b : ℚ) = ((b : Nat) : ℚ) := rfl
        _ ≤ ((a * 2 ^ (-e).toNat : Nat) : ℚ) := by exact_mod_cast h
        _ = (a : ℚ) * (2 : ℚ) ^ (-e).toNat := by push_cast; ring
    · intro h
      have h3 : ((b : Nat) : ℚ) ≤ ((a * 2 ^ (-e).toNat : Nat) : ℚ) := by
        calc ((b : Nat) : ℚ) = (b : ℚ) := rfl
          _ ≤ (a : ℚ) * (2 : ℚ) ^ (-e).toNat := h
          _ = ((a * 2 ^ (-e).toNat : Nat) : ℚ) := by push_cast; ring
      exact_mod_cast h3

theorem ebound_spec (a b : Nat) (ha : 0 < a) (hb : 0 < b) :
    (2 : ℚ) ^ ebound a b ≤ (a : ℚ) / (b : ℚ) ∧
      (a : ℚ) / (b : ℚ) < (2 : ℚ) ^ (ebound a b + 1) := by
  have hbq : (0 : ℚ) < (b : ℚ) := by exact_mod_cast hb
  obtain ⟨ha1, ha2⟩ := bitlen_spec a ha
  obtain ⟨hb1, hb2⟩ := bitlen_spec b hb
  have hLa := bitlen_pos a ha
  have hq_lo : (2 : ℚ) ^ ((bitlen a : Int) - (bitlen b : Int) - 1) ≤ (a : ℚ) / (b : ℚ) := by
    have h1 : (bitlen a : Int) - (bitlen b : Int) - 1 =
        ((bitlen a - 1 : Nat) : Int) - ((bitlen b : Nat) : Int) := by omega
    rw [h1, zpow_sub₀ (by norm_num : (2 : ℚ) ≠ 0), zpow_natCast, zpow_natCast,
      div_le_div_iff (by positivity) hbq]
    have h2 : 2 ^ (bitlen a - 1) * b ≤ a * 2 ^ bitlen b :=
      Nat.mul_le_mul ha1 (le_of_lt hb2)
    exact_mod_cast h2
  have hq_hi : (a : ℚ) / (b : ℚ) < (2 : ℚ) ^ ((bitlen a : Int) - (bitlen b : Int) + 1) := by
    have h1 : (bitlen a : Int) - (bitlen b : Int) + 1 =
        ((bitlen a : Nat) : Int) - ((bitlen b - 1 : Nat) : Int) := by
      have := bitlen_pos b hb
      omega
    rw [h1, zpow_sub₀ (by norm_num : (2 : ℚ) ≠ 0), zpow_natCast, zpow_natCast,
      div_lt_div_iff hbq (by positivity)]
    have h2 : a * 2 ^ (bitlen b - 1) < 2 ^ bitlen a * b := by
      calc a * 2 ^ (bitlen b - 1) < 2 ^ bitlen a * 2 ^ (bitlen b - 1) :=
        mul_lt_mul_of_pos_right ha2 (Nat.pos_pow_of_pos _ (by norm_num))
        _ ≤ 2 ^ bitlen a * b := Nat.mul_le_mul_left _ hb1
    exact_mod_cast h2
  unfold ebound
  by_cases hp : pow2LE b a ((bitlen a : Int) - (bitlen b : Int)) = true
  · rw [if_pos hp]
    exact ⟨(pow2LE_iff a b hb _).mp hp, hq_hi⟩
  · rw [if_neg hp]
    constructor
    · exact hq_lo
    · have h3 : ¬ (2 : ℚ) ^ ((bitlen a : Int) - (bitlen b : Int)) ≤ (a : ℚ) / (b : ℚ) :=
        fun hc => hp ((pow2LE_iff a b hb _).mpr hc)
      rw [show (bitlen a : Int) - (bitlen b : Int) - 1 + 1 =
        (bitlen a : Int) - (bitlen b : Int) by ring]
      exact lt_of_not_le h3

theorem pow53_cast : ((2 ^ 53 : Nat) : ℚ) = (2 : ℚ) ^ (53 : Int) := by
  push_cast
  rw [show ((53 : Int) : ℤ) = ((53 : Nat) : ℤ) by norm_num]
  rw [zpow_natCast]
  norm_num

theorem ebound_le_52 (a b : Nat) (ha : 0 < a) (hb : 0 < b)
    (h : (a : ℚ) / (b : ℚ) < (2 : ℚ) ^ (53 : Int)) : ebound a b ≤ 52 := by
  by_contra hgt
  push_neg at hgt
  have h53 : (2 : ℚ) ^ (53 : Int) ≤ (2 : ℚ) ^ ebound a b :=
    zpow_le_zpow_right₀ (by norm_num) (by omega)
  have h1 := (ebound_spec a b ha hb).1
  have := lt_irrefl ((2 : ℚ) ^ (53 : Int))
  exact this (lt_of_le_of_lt (h53.trans h1) h)

theorem roundRat_eq (a b : Nat) (ha : 0 < a) (hb : 0 < b) (hs : ebound a b ≤ 52) :
    roundRat a b =
      ⟨(fun N => if 2 * (N % b) < b then N / b
        else if b < 2 * (N % b) then N / b + 1
        else if (N / b) % 2 = 0 then N / b else N / b + 1)
        (a * 2 ^ (52 - ebound a b).toNat),
       ebound a b - 52⟩ := by
  unfold roundRat
  rw [if_neg (by omega)]
  have hs2 : 0 ≤ 52 - ebound a b := by omega
  simp only [if_pos hs2]

theorem val_scale (a b : Nat) (hb : 0 < b) (e : Int) (he : e ≤ 52) :
    ((a * 2 ^ (52 - e).toNat : Nat) : ℚ) / (b : ℚ) * (2 : ℚ) ^ (e - 52) =
      (a : ℚ) / (b : ℚ) := by
  have hbq : ((b : ℚ)) ≠ 0 := by positivity
  have h1 : ((52 - e).toNat : Int) = 52 - e := Int.toNat_of_nonneg (by omega)
  push_cast
  rw [← zpow_natCast (2 : ℚ) (52 - e).toNat, h1]
  rw [div_mul_eq_mul_div, mul_assoc, ← zpow_add₀ (by norm_num : (2 : ℚ) ≠ 0)]
  rw [show (52 : Int) - e + (e - 52) = 0 by ring]
  rw [zpow_zero, mul_one]

theorem roundRat_int (a b k : Nat) (ha : 0 < a) (hb : 0 < b) (hk53 : k < 2 ^ 53)
    (hq : (a : ℚ) / (b : ℚ) = (k : ℚ)) : (roundRat a b).val = (k : ℚ) := by
  have hbq : (0 : ℚ) < (b : ℚ) := by exact_mod_cast hb
  have hab : a = k * b := by
    have h1 : (a : ℚ) = (k : ℚ) * (b : ℚ) := by
      rw [div_eq_iff (ne_of_gt hbq)] at hq
      exact hq
    exact_mod_cast h1
  have he52 : ebound a b ≤ 52 := by
    apply ebound_le_52 a b ha hb
    rw [hq, ← pow53_cast]
    exact_mod_cast hk53
  rw [roundRat_eq a b ha hb he52]
  set S := (52 - ebound a b).toNat with hS
  have hmod : (a * 2 ^ S) % b = 0 := by
    rw [hab, Nat.mul_right_comm]
    exact Nat.mul_mod_left (k * 2 ^ S) b
  have hdiv : (a * 2 ^ S) / b = k * 2 ^ S := by
    rw [hab, Nat.mul_right_comm]
    exact Nat.mul_div_cancel _ hb
  simp only [hmod, hdiv, Nat.mul_zero, if_pos (by omega : 2 * 0 < b)]
  unfold F64.val
  have h3 : ((k * 2 ^ S : Nat) : ℚ) = ((a * 2 ^ S : Nat) : ℚ) / (b : ℚ) := by
    rw [eq_div_iff (ne_of_gt hbq)]
    push_cast
    rw [hab]
    push_cast
    ring
  show ((k * 2 ^ S : Nat) : ℚ) * (2 : ℚ) ^ (ebound a b - 52) = (k : ℚ)
  rw [h3, hS, val_scale a b hb (ebound a b) he52, hq]

theorem roundRat_ceil (a b B R : Nat) (ha : 0 < a) (hb : 0 < b) (hR : 0 < R)
    (hB53 : B < 2 ^ 53) (hq : (a : ℚ) / (b : ℚ) = (B : ℚ) / (R : ℚ)) :
    ⌈(roundRat a b).val⌉ = ⌈(B : ℚ) / (R : ℚ)⌉ := by
  have hbq : (0 : ℚ) < (b : ℚ) := by exact_mod_cast hb
  have haq : (0 : ℚ) < (a : ℚ) := by exact_mod_cast ha
  have hRq : (0 : ℚ) < (R : ℚ) := by exact_mod_cast hR
  have hq_pos : (0 : ℚ) < (a : ℚ) / (b : ℚ) := div_pos haq hbq
  have hB0 : 0 < B := by
    by_contra hB
    have hB : B = 0 := by omega
    rw [hq, hB] at hq_pos
    simp at hq_pos
  have hq53 : (a : ℚ) / (b : ℚ) < (2 : ℚ) ^ (53 : Int) := by
    rw [hq]
    calc (B : ℚ) / (R : ℚ) ≤ (B : ℚ) := by
          apply div_le_self (le_of_lt (by exact_mod_cast hB0))
          exact_mod_cast hR
      _ < (2 : ℚ) ^ (53 : Int) := by
          rw [← pow53_cast]
          exact_mod_cast hB53
  have he52 : ebound a b ≤ 52 := ebound_le_52 a b ha hb hq53
  by_cases hf : B % R = 0
  · have hk0 : 0 < B / R := Nat.div_pos (Nat.le_of_dvd hB0 (Nat.dvd_of_mod_eq_zero hf)) hR
    have hkq : (B : ℚ) / (R : ℚ) = ((B / R : Nat) : ℚ) := by
      have h1 : B = (B / R) * R := by
        rw [Nat.div_mul_cancel (Nat.dvd_of_mod_eq_zero hf)]
      rw [eq_comm, eq_div_iff (ne_of_gt hRq)]
      exact_mod_cast h1.symm
    rw [roundRat_int a b (B / R) ha hb
      (by have := Nat.div_le_self B R; omega) (hq.trans hkq), hkq]
  · set k := B / R with hk
    set e := ebound a b with he
    set S := (52 - e).toNat with hS
    have hBRk : R * k + B % R = B := Nat.div_add_mod B R
    have hfk : 1 ≤ B % R := by omega
    have hfR : B % R < R := Nat.mod_lt B hR
    -- rational bracketing of q := B / R
    have hq_k_lt : (k : ℚ) < (B : ℚ) / (R : ℚ) := by
      rw [lt_div_iff₀ hRq]
      have h1 : R * k < B := by omega
      calc (k : ℚ) * (R : ℚ) = ((R * k : Nat) : ℚ) := by push_cast; ring
        _ < (B : ℚ) := by exact_mod_cast h1
    have hq_lt_k1 : (B : ℚ) / (R : ℚ) < (k : ℚ) + 1 := by
      rw [div_lt_iff₀ hRq]
      have h1 : B < R * (k + 1) := by
        have h2 : R * (k + 1) = R * k + R := by ring
        omega
      calc (B : ℚ) < ((R * (k + 1) : Nat) : ℚ) := by exact_mod_cast h1
        _ = ((k : ℚ) + 1) * (R : ℚ) := by push_cast; ring
    set N := a * 2 ^ S with hN
    set qq := N / b with hqq
    set r := N % b with hr
    set n := if 2 * r < b then qq else if b < 2 * r then qq + 1
      else if qq % 2 = 0 then qq else qq + 1 with hn
    have hval : (roundRat a b).val = (n : ℚ) * (2 : ℚ) ^ (e - 52) := by
      rw [roundRat_eq a b ha hb (by rw [← he]; exact he52)]
      rfl
    have hNval : ((N : Nat) : ℚ) / (b : ℚ) * (2 : ℚ) ^ (e - 52) = (a : ℚ) / (b : ℚ) := by
      rw [hN, hS]
      exact val_scale a b hb e he52
    -- upper bound : n ≤ (k + 1) * 2 ^ S
    have ha_lt : a < b * (k + 1) := by
      have h1 : (a : ℚ) < (b : ℚ) * ((k : ℚ) + 1) := by
        rw [← hq] at hq_lt_k1
        rw [div_lt_iff₀ hbq] at hq_lt_k1
        calc (a : ℚ) < ((k : ℚ) + 1) * (b : ℚ) := hq_lt_k1
          _ = (b : ℚ) * ((k : ℚ) + 1) := by ring
      have h2 : (a : ℚ) < ((b * (k + 1) : Nat) : ℚ) := by
        rw [show ((b * (k + 1) : Nat) : ℚ) = (b : ℚ) * ((k : ℚ) + 1) by push_cast; ring]
        exact h1
      exact_mod_cast h2
    have hqq_lt : qq < (k + 1) * 2 ^ S := by
      rw [hqq, Nat.div_lt_iff_lt_mul hb, hN]
      calc a * 2 ^ S < (b * (k + 1)) * 2 ^ S :=
        mul_lt_mul_of_pos_right ha_lt (Nat.pos_pow_of_pos _ (by norm_num))
        _ = (k + 1) * 2 ^ S * b := by ring
    have hn_le : n ≤ (k + 1) * 2 ^ S := by
      rw [hn]
      split_ifs <;> omega
    -- lower bound : (n : ℚ) ≥ N / b - 1 / 2
    have hNb : ((N : Nat) : ℚ) = (qq : ℚ) * (b : ℚ) + (r : ℚ) := by
      have h1 : b * qq + r = N := Nat.div_add_mod N b
      calc ((N : Nat) : ℚ) = ((b * qq + r : Nat) : ℚ) := by rw [h1]
        _ = (qq : ℚ) * (b : ℚ) + (r : ℚ) := by push_cast; ring
    have hr_lt : r < b := Nat.mod_lt N hb
    have hn_ge : ((N : Nat) : ℚ) / (b : ℚ) - 1 / 2 ≤ (n : ℚ) := by
      have hfrac : ((N : Nat) : ℚ) / (b : ℚ) = (qq : ℚ) + (r : ℚ) / (b : ℚ) := by
        rw [hNb]
        field_simp
      rw [hfrac]
      rw [hn]
      split_ifs with h1 h2 h3
      · -- 2 r < b : fraction < 1/2
        have : (r : ℚ) / (b : ℚ) < 1 / 2 := by
          rw [div_lt_div_iff hbq (by norm_num)]
          have : (2 : ℚ) * (r : ℚ) < (b : ℚ) := by exact_mod_cast h1
          linarith
        push_cast
        linarith
      · -- b < 2 r : round up
        have : (r : ℚ) / (b : ℚ) < 1 := by
          rw [div_lt_one hbq]
          exact_mod_cast hr_lt
        push_cast
        linarith
      · -- tie, even
        have hr0 : (0 : ℚ) < (r : ℚ) := by exact_mod_cast (by omega : 0 < r)
        have : (r : ℚ) / (b : ℚ) = 1 / 2 := by
          have hbr : (b : ℚ) = 2 * (r : ℚ) := by exact_mod_cast (by omega : b = 2 * r)
          rw [hbr, div_eq_div_iff (by linarith) (by norm_num)]
          ring
        push_cast
        linarith
      · -- tie, odd : round up
        have hr0 : (0 : ℚ) < (r : ℚ) := by exact_mod_cast (by omega : 0 < r)
        have : (r : ℚ) / (b : ℚ) = 1 / 2 := by
          have hbr : (b : ℚ) = 2 * (r : ℚ) := by exact_mod_cast (by omega : b = 2 * r)
          rw [hbr, div_eq_div_iff (by linarith) (by norm_num)]
          ring
        push_cast
        linarith
    -- half-ulp is smaller than the distance from q down to k
    have hulp : (2 : ℚ) ^ (e - 53) < 1 / (R : ℚ) := by
      have hRe : (R : ℚ) * (2 : ℚ) ^ e ≤ (B : ℚ) := by
        have h1 : (2 : ℚ) ^ e ≤ (a : ℚ) / (b : ℚ) := by
          rw [he]
          exact (ebound_spec a b ha hb).1
        rw [hq] at h1
        rw [le_div_iff₀ hRq] at h1
        linarith
      have hB2 : (B : ℚ) < (2 : ℚ) ^ (53 : Int) := by
        rw [← pow53_cast]
        exact_mod_cast hB53
      have h2 : (R : ℚ) * (2 : ℚ) ^ e < (2 : ℚ) ^ (53 : Int) := lt_of_le_of_lt hRe hB2
      have hp53 : (0 : ℚ) < (2 : ℚ) ^ (53 : Int) := by positivity
      have hsplit : (2 : ℚ) ^ (e - 53) = (2 : ℚ) ^ e / (2 : ℚ) ^ (53 : Int) := by
        rw [div_eq_mul_inv, ← zpow_neg, ← zpow_add₀ (by norm_num : (2 : ℚ) ≠ 0)]
        congr 1
      rw [hsplit, div_lt_div_iff hp53 hRq, one_mul]
      linarith [h2]
    have hdist : (k : ℚ) + (2 : ℚ) ^ (e - 53) < (B : ℚ) / (R : ℚ) := by
      have h1 : (1 : ℚ) / (R : ℚ) ≤ (B : ℚ) / (R : ℚ) - (k : ℚ) := by
        rw [div_le_iff₀ hRq] at *
        have h2 : ((R * k + 1 : Nat) : ℚ) ≤ (B : ℚ) := by
          exact_mod_cast (by omega : R * k + 1 ≤ B)
        push_cast at h2
        rw [sub_mul, div_mul_cancel₀ _ (ne_of_gt hRq)]
        linarith
      linarith [hulp]
    -- conclude
    have hval_le : (roundRat a b).val ≤ (k : ℚ) + 1 := by
      rw [hval]
      have h1 : ((n : Nat) : ℚ) ≤ (((k + 1) * 2 ^ S : Nat) : ℚ) := by exact_mod_cast hn_le
      have h2 : (0 : ℚ) < (2 : ℚ) ^ (e - 52) := by positivity
      have hvs := val_scale (k + 1) 1 (by norm_num) e he52
      rw [← hS] at hvs
      have h4 : (((k + 1) * 2 ^ S : Nat) : ℚ) / ((1 : Nat) : ℚ) =
          (((k + 1) * 2 ^ S : Nat) : ℚ) := by norm_num
      rw [h4] at hvs
      have h3 : (((k + 1) * 2 ^ S : Nat) : ℚ) * (2 : ℚ) ^ (e - 52) = (k : ℚ) + 1 := by
        rw [hvs]
        push_cast
        norm_num
      calc (n : ℚ) * (2 : ℚ) ^ (e - 52)
          ≤ (((k + 1) * 2 ^ S : Nat) : ℚ) * (2 : ℚ) ^ (e - 52) :=
            mul_le_mul_of_nonneg_right h1 (le_of_lt h2)
        _ = (k : ℚ) + 1 := h3
    have hval_gt : (k : ℚ) < (roundRat a b).val := by
      rw [hval]
      have h2 : (0 : ℚ) < (2 : ℚ) ^ (e - 52) := by positivity
      have h3 : (((N : Nat) : ℚ) / (b : ℚ) - 1 / 2) * (2 : ℚ) ^ (e - 52) ≤
          (n : ℚ) * (2 : ℚ) ^ (e - 52) :=
        mul_le_mul_of_nonneg_right hn_ge (le_of_lt h2)
      have h4 : (((N : Nat) : ℚ) / (b : ℚ) - 1 / 2) * (2 : ℚ) ^ (e - 52) =
          (a : ℚ) / (b : ℚ) - (2 : ℚ) ^ (e - 53) := by
        rw [sub_mul, hNval]
        congr 1
        rw [show e - 53 = (e - 52) + -(1 : Int) by ring,
          zpow_add₀ (by norm_num : (2 : ℚ) ≠ 0)]
        rw [show (2:ℚ) ^ (-(1:Int)) = 2⁻¹ by
          rw [zpow_neg, zpow_one]]
        ring
      rw [hq] at h4
      have h5 : (k : ℚ) < (B : ℚ) / (R : ℚ) - (2 : ℚ) ^ (e - 53) := by linarith [hdist]
      linarith [h3, h4.symm.le]
    have hceil1 : ⌈(roundRat a b).val⌉ = (k : Int) + 1 := by
      rw [Int.ceil_eq_iff]
      constructor
      · push_cast
        linarith [hval_gt]
      · push_cast
        exact hval_le
    have hceil2 : ⌈(B : ℚ) / (R : ℚ)⌉ = (k : Int) + 1 := by
      rw [Int.ceil_eq_iff]
      constructor
      · push_cast
        linarith [hq_k_lt]
      · push_cast
        linarith [hq_lt_k1]
    rw [hceil1, hceil2]

theorem ceil_nat_div (p q : Nat) (hq : 0 < q) :
    ⌈(p : ℚ) / (q : ℚ)⌉ = (((p + q - 1) / q : Nat) : Int) := by
  have hqq : (0 : ℚ) < (q : ℚ) := by exact_mod_cast hq
  set m := (p + q - 1) / q with hm
  have key : p ≤ q * m ∧ q * m < p + q := by
    have h1 : q * m + (p + q - 1) % q = p + q - 1 := Nat.div_add_mod (p + q - 1) q
    have h2 : (p + q - 1) % q < q := Nat.mod_lt _ hq
    have key2 : ∀ t r : Nat, t + r = p + q - 1 → r < q → p ≤ t ∧ t < p + q := by
      intro t r ht hr
      omega
    exact key2 (q * m) ((p + q - 1) % q) h1 h2
  have hub : (p : ℚ) / (q : ℚ) ≤ (m : ℚ) := by
    rw [div_le_iff₀ hqq]
    have h3 : (p : ℚ) ≤ ((q * m : Nat) : ℚ) := by exact_mod_cast key.1
    push_cast at h3
    linarith
  have hlb : (m : ℚ) - 1 < (p : ℚ) / (q : ℚ) := by
    rw [lt_div_iff₀ hqq]
    have h3 : ((q * m : Nat) : ℚ) < (p : ℚ) + (q : ℚ) := by
      exact_mod_cast key.2
    push_cast at h3
    nlinarith
  rw [Int.ceil_eq_iff]
  constructor
  · push_cast
    linarith
  · push_cast
    linarith

theorem wrap64_id (z : Int) (h1 : -(2 ^ 63) ≤ z) (h2 : z < 2 ^ 63) : wrap64 z = z := by
  unfold wrap64
  omega

theorem f64ceilInt_eq (x : F64) : f64ceilInt x = ⌈x.val⌉ := by
  unfold f64ceilInt F64.val
  split_ifs with h
  · have hc : (x.num : ℚ) * (2 : ℚ) ^ x.exp =
        (((x.num * 2 ^ x.exp.toNat : Nat) : Int) : ℚ) := by
      push_cast
      rw [← zpow_natCast (2 : ℚ) x.exp.toNat, Int.toNat_of_nonneg h]
    rw [hc, Int.ceil_intCast]
  · have hd : (0 : ℚ) < ((2 ^ (-x.exp).toNat : Nat) : ℚ) := by
      push_cast
      positivity
    have hc : (x.num : ℚ) * (2 : ℚ) ^ x.exp =
        (x.num : ℚ) / ((2 ^ (-x.exp).toNat : Nat) : ℚ) := by
      rw [div_eq_mul_inv]
      congr 1
      push_cast
      rw [← zpow_natCast (2 : ℚ) (-x.exp).toNat, Int.toNat_of_nonneg (by omega),
        ← zpow_neg, neg_neg]
    rw [hc]
    rw [ceil_nat_div x.num (2 ^ (-x.exp).toNat) (Nat.pos_pow_of_pos _ (by norm_num))]

theorem F64_num_pos_of_val_pos (x : F64) (h : 0 < x.val) : 0 < x.num := by
  by_contra hc
  have h0 : x.num = 0 := by omega
  rw [F64.val, h0] at h
  simp at h

theorem f64div_roundRat_ceil (B R : Nat) (hB : 0 < B) (hB53 : B < 2 ^ 53)
    (hR : 0 < R) (hR53 : R < 2 ^ 53) :
    ⌈(f64div (roundRat B 1) (roundRat R 1)).val⌉ = ⌈(B : ℚ) / (R : ℚ)⌉ := by
  have hvx : (roundRat B 1).val = (B : ℚ) := roundRat_int B 1 B hB (by norm_num) hB53 (by norm_num)
  have hvy : (roundRat R 1).val = (R : ℚ) := roundRat_int R 1 R hR (by norm_num) hR53 (by norm_num)
  set x := roundRat B 1 with hx
  set y := roundRat R 1 with hy
  have hBq : (0 : ℚ) < (B : ℚ) := by exact_mod_cast hB
  have hRq : (0 : ℚ) < (R : ℚ) := by exact_mod_cast hR
  have hnx : 0 < x.num := F64_num_pos_of_val_pos x (by rw [hvx]; exact hBq)
  have hny : 0 < y.num := F64_num_pos_of_val_pos y (by rw [hvy]; exact hRq)
  have hnxq : (0 : ℚ) < (x.num : ℚ) := by exact_mod_cast hnx
  have hnyq : (0 : ℚ) < (y.num : ℚ) := by exact_mod_cast hny
  have hvx2 : (x.num : ℚ) * (2 : ℚ) ^ x.exp = (B : ℚ) := hvx
  have hvy2 : (y.num : ℚ) * (2 : ℚ) ^ y.exp = (R : ℚ) := hvy
  unfold f64div
  split_ifs with hcase
  · -- scale the numerator
    apply roundRat_ceil _ _ B R _ hny hR hB53
    · have h1 : ((x.num * 2 ^ (x.exp - y.exp).toNat : Nat) : ℚ) =
          (x.num : ℚ) * (2 : ℚ) ^ (x.exp - y.exp) := by
        push_cast
        rw [← zpow_natCast (2 : ℚ) (x.exp - y.exp).toNat, Int.toNat_of_nonneg hcase]
      rw [h1, div_eq_div_iff (ne_of_gt hnyq) (ne_of_gt hRq), ← hvx2, ← hvy2]
      have hz : (2 : ℚ) ^ (x.exp - y.exp) * (2 : ℚ) ^ y.exp = (2 : ℚ) ^ x.exp := by
        rw [← zpow_add₀ (by norm_num : (2 : ℚ) ≠ 0)]
        congr 1
        ring
      calc (x.num : ℚ) * (2 : ℚ) ^ (x.exp - y.exp) * ((y.num : ℚ) * (2 : ℚ) ^ y.exp)
          = ((2 : ℚ) ^ (x.exp - y.exp) * (2 : ℚ) ^ y.exp) * ((x.num : ℚ) * (y.num : ℚ)) := by
            ring
        _ = (2 : ℚ) ^ x.exp * ((x.num : ℚ) * (y.num : ℚ)) := by rw [hz]
        _ = (x.num : ℚ) * (2 : ℚ) ^ x.exp * (y.num : ℚ) := by ring
    · exact Nat.mul_pos hnx (Nat.pos_pow_of_pos _ (by norm_num))
  · -- scale the denominator
    apply roundRat_ceil _ _ B R hnx _ hR hB53
    · have h1 : ((y.num * 2 ^ (y.exp - x.exp).toNat : Nat) : ℚ) =
          (y.num : ℚ) * (2 : ℚ) ^ (y.exp - x.exp) := by
        push_cast
        rw [← zpow_natCast (2 : ℚ) (y.exp - x.exp).toNat, Int.toNat_of_nonneg (by omega)]
      have hbq : (0 : ℚ) < (y.num : ℚ) * (2 : ℚ) ^ (y.exp - x.exp) := by positivity
      rw [h1, div_eq_div_iff (ne_of_gt hbq) (ne_of_gt hRq), ← hvx2, ← hvy2]
      have hz : (2 : ℚ) ^ (y.exp - x.exp) * (2 : ℚ) ^ x.exp = (2 : ℚ) ^ y.exp := by
        rw [← zpow_add₀ (by norm_num : (2 : ℚ) ≠ 0)]
        congr 1
        ring
      calc (x.num : ℚ) * ((y.num : ℚ) * (2 : ℚ) ^ y.exp)
          = (2 : ℚ) ^ y.exp * ((x.num : ℚ) * (y.num : ℚ)) := by ring
        _ = ((2 : ℚ) ^ (y.exp - x.exp) * (2 : ℚ) ^ x.exp) * ((x.num : ℚ) * (y.num : ℚ)) := by
            rw [hz]
        _ = (x.num : ℚ) * (2 : ℚ) ^ x.exp * ((y.num : ℚ) * (2 : ℚ) ^ (y.exp - x.exp)) := by
            ring
    · exact Nat.mul_pos hny (Nat.pos_pow_of_pos _ (by norm_num))

/-- C3 (amended): for positive burst `B` and positive rate `R`, both below
`2 ^ 53` (so that the `float64` conversions are exact), the rate-limiter
expiry window string equals the exact integer ceiling `⌈B / R⌉ * 1000`
milliseconds. The original claim, quantified over all positive `B` and `R`,
is refuted by `c3_counterexample`: at `B = 2 ^ 53 + 1, R = 1` the
`float64(m.Conn.Burst)` conversion in `rateLimitExpiryPeriod` rounds and the
window is 1000 ms short of `ceil(B / R) * 1000`. -/
theorem c3_rate_limit_expiry_amended (B R : Nat) (hB : 0 < B) (hB53 : B < 2 ^ 53)
    (hR : 0 < R) (hR53 : R < 2 ^ 53) :
    rateLimitExpiryPeriodM B R = toString ((((B + R - 1) / R : Nat) : Int) * 1000) := by
  have hmB : (B + R - 1) / R ≤ B := by
    obtain ⟨b1, rfl⟩ : ∃ b1, B = b1 + 1 := ⟨B - 1, by omega⟩
    obtain ⟨r1, rfl⟩ : ∃ r1, R = r1 + 1 := ⟨R - 1, by omega⟩
    have h1 : b1 + 1 + (r1 + 1) - 1 ≤ (b1 + 1) * (r1 + 1) := by
      have hexp : (b1 + 1) * (r1 + 1) = b1 * r1 + b1 + r1 + 1 := by ring
      omega
    calc (b1 + 1 + (r1 + 1) - 1) / (r1 + 1) ≤ ((b1 + 1) * (r1 + 1)) / (r1 + 1) :=
          Nat.div_le_div_right h1
      _ = b1 + 1 := Nat.mul_div_cancel _ (by omega)
  have h : wrap64 (f64ceilInt (f64div (roundRat B 1) (roundRat R 1)) * 1000) =
      (((B + R - 1) / R : Nat) : Int) * 1000 := by
    rw [f64ceilInt_eq, f64div_roundRat_ceil B R hB hB53 hR hR53, ceil_nat_div B R hR]
    apply wrap64_id
    · have h1 : (0 : Int) ≤ (((B + R - 1) / R : Nat) : Int) := Int.natCast_nonneg _
      omega
    · have h1 : (((B + R - 1) / R : Nat) : Int) < 2 ^ 53 := by
        exact_mod_cast lt_of_le_of_lt hmB hB53
      omega
  unfold rateLimitExpiryPeriodM
  rw [h]

theorem c3_witness :
    rateLimitExpiryPeriodM 100 10 = "10000" ∧ rateLimitExpiryPeriodM 101 10 = "11000" :=
  ⟨(c3_rate_limit_expiry_amended 100 10 (by norm_num) (by norm_num) (by norm_num)
      (by norm_num)).trans (by decide),
   (c3_rate_limit_expiry_amended 101 10 (by norm_num) (by norm_num) (by norm_num)
      (by norm_num)).trans (by decide)⟩

theorem c3_counterexample :
    rateLimitExpiryPeriodM (2 ^ 53 + 1) 1 = "9007199254740992000" ∧
    toString (((((2 ^ 53 + 1) + 1 - 1) / 1 : Nat) : Int) * 1000) = "9007199254740993000" := by
  constructor
  · decide
  · decide

theorem validateListGo_isSome (parseC : String → Except String String) (l : List String) :
    (validateListGo parseC l).1.isSome =
      l.any (fun d => match parseC d with
        | Except.error _ => true
        | Except.ok _ => false) := by
  induction l with
  | nil => rfl
  | cons d rest ih =>
      simp only [validateListGo, List.any_cons]
      cases hd : parseC d with
      | error e => simp
      | ok c => simpa using ih

theorem validateDenyNetworksM_isSome (parseC : String → Except String String)
    (dn : DenyNetworks) :
    (validateDenyNetworksM parseC dn).1.isSome = hasBadDenyEntry parseC dn := by
  have hA := validateListGo_isSome parseC dn.Always
  have hR := validateListGo_isSome parseC dn.Running
  have hS := validateListGo_isSome parseC dn.Staging
  unfold validateDenyNetworksM hasBadDenyEntry
  rw [List.any_append, List.any_append]
  cases cA : (validateListGo parseC dn.Always).1 with
  | some e =>
      rw [cA] at hA
      simp only [Option.isSome_some] at hA
      simp [cA, ← hA]
  | none =>
      rw [cA] at hA
      simp only [Option.isSome_none] at hA
      cases cR : (validateListGo parseC dn.Running).1 with
      | some e =>
          rw [cR] at hR
          simp only [Option.isSome_some] at hR
          simp [cA, cR, ← hA, ← hR]
      | none =>
          rw [cR] at hR
          simp only [Option.isSome_none] at hR
          simp [cA, cR, ← hA, ← hR, ← hS]

/-- C4 (amended): if the chain construction preceding validation succeeds and
some deny-network entry fails to parse as a CIDR, `Initialize` returns an
error and the adapter trace is empty — no chain create or rule apply call is
issued. However, the "zero side effects" clause of the original claim is
false: the deny-network lists are canonicalized in place up to the failing
entry, so the post-call lists are exactly the mutated state
`(validateDenyNetworksM parseC m.DenyNets).2`, which `c4_counterexample`
shows can differ from the original lists. -/
theorem c4_deny_validation_amended (m : NetOutM) (pre : String → String → String)
    (post : String → String → Except String String)
    (splitHP : String → Except String (String × String))
    (parseC : String → Except String String) (args : List IpTablesFullChain)
    (hok : defaultNetOutRulesM m pre post = Except.ok args)
    (hbad : hasBadDenyEntry parseC m.DenyNets = true) :
    (netOutInitM m pre post splitHP parseC).1 ≠ Except.ok () ∧
    (netOutInitM m pre post splitHP parseC).2 =
      ((validateDenyNetworksM parseC m.DenyNets).2, []) := by
  have h1 : (validateDenyNetworksM parseC m.DenyNets).1.isSome = true := by
    rw [validateDenyNetworksM_isSome]
    exact hbad
  cases hv : (validateDenyNetworksM parseC m.DenyNets).1 with
  | none => rw [hv] at h1; simp at h1
  | some e =>
      unfold netOutInitM
      rw [hok]
      dsimp only
      rw [hv]
      exact ⟨by simp, rfl⟩

theorem c4_witness :
    (netOutInitM mEx4 preEx postEx splitHPEx parseCEx).1 ≠ Except.ok () ∧
    (netOutInitM mEx4 preEx postEx splitHPEx parseCEx).2 =
      ((validateDenyNetworksM parseCEx mEx4.DenyNets).2, []) :=
  c4_deny_validation_amended mEx4 preEx postEx splitHPEx parseCEx argsEx4
    (by decide) (by decide)

theorem c4_counterexample :
    netOutInitM mEx4 preEx postEx splitHPEx parseCEx =
      (Except.error "deny networks: invalid CIDR address: bad",
       ⟨["10.0.0.0/8", "bad"], [], []⟩, []) ∧
    (⟨["10.0.0.0/8", "bad"], [], []⟩ : DenyNetworks) ≠ mEx4.DenyNets := by
  constructor
  · decide
  · decide

/-- C6 (amended): (1) when dry-run is off, every chain produced by
`defaultNetOutRules` has a body ending in exactly one terminal rule, under
every combination of the ASG-logging, C2C-logging, rate-limit and
rate-limit-logging flags; (2,3) the ASG and C2C logging insertions place the
log rule immediately before the final (terminal) rule, leaving the earlier
body rules in order. The original claim quantified over dry-run as well; it
is refuted by `c6_counterexample`: with rate limiting on, dry-run on and
rate-limit logging off, the rate-limit log chain body is empty, and with
logging on its last rule is the log rule, not a terminal. -/
theorem c6_terminal_rule_amended (m : NetOutM) (pre : String → String → String)
    (post : String → String → Except String String) :
    (∀ args, defaultNetOutRulesM m pre post = Except.ok args →
      m.Conn.DryRun = false → ∀ c ∈ args, goodBody c.Rules = true) ∧
    (∀ c rs t, m.ASGLogging = true → c.Rules = rs ++ [t] →
      (addASGLoggingM m c).Rules =
        rs ++ [GRule.netOutDefaultRejectLog m.ContainerHandle m.DeniedLogsPerSec] ++ [t]) ∧
    (∀ c rs t, m.C2CLogging = true → c.Rules = rs ++ [t] →
      (addC2CLoggingM m c).Rules =
        rs ++ [GRule.overlayDefaultRejectLog m.ContainerHandle m.ContainerIP
          m.DeniedLogsPerSec] ++ [t]) := by
  refine ⟨?_, ?_, ?_⟩
  · intro args hok hdry c hc
    cases hp1 : post (pre pfxNetOut m.ContainerHandle) sfxNetOutLog with
    | error e =>
        simp only [defaultNetOutRulesM, connRateLimitLogChainM, netOutLogChainM,
          hp1, reduceCtorEq] at hok
    | ok nm1 =>
        cases hlim : m.Conn.Limit with
        | false =>
            simp only [defaultNetOutRulesM, connRateLimitLogChainM, netOutLogChainM,
              hp1, hlim, reduceIte, Bool.false_eq_true, if_false,
              Except.ok.injEq] at hok
            subst hok
            simp only [List.mem_append, List.mem_cons, List.mem_singleton,
              List.not_mem_nil, or_false] at hc
            rcases hc with ((rfl | rfl | rfl) | rfl)
            · rfl
            · cases hasg : m.ASGLogging <;> simp only [addASGLoggingM, hasg] <;> rfl
            · cases hc2c : m.C2CLogging <;> simp only [addC2CLoggingM, hc2c] <;> rfl
            · rfl
        | true =>
            cases hp2 : post (pre pfxNetOut m.ContainerHandle) sfxNetOutRateLimitLog with
            | error e =>
                simp only [defaultNetOutRulesM, connRateLimitLogChainM,
                  netOutLogChainM, hp1, hp2, hlim, reduceIte, reduceCtorEq] at hok
            | ok nm2 =>
                simp only [defaultNetOutRulesM, connRateLimitLogChainM,
                  netOutLogChainM, hp1, hp2, hlim, reduceIte,
                  Except.ok.injEq] at hok
                subst hok
                simp only [List.mem_append, List.mem_cons, List.mem_singleton,
                  List.not_mem_nil, or_false] at hc
                rcases hc with (((rfl | rfl | rfl) | rfl) | rfl)
                · rfl
                · cases hasg : m.ASGLogging <;> simp only [addASGLoggingM, hasg] <;> rfl
                · cases hc2c : m.C2CLogging <;> simp only [addC2CLoggingM, hc2c] <;> rfl
                · rfl
                · rw [hdry]
                  cases hlg : m.Conn.Logging <;> rfl
  · intro c rs t hflag hrules
    simp only [addASGLoggingM, hflag, if_pos, hrules]
    have h1 : (rs ++ [t]).dropLast = rs := by simp
    have h2 : (rs ++ [t]).drop ((rs ++ [t]).length - 1) = [t] := by
      simp
    rw [h1, h2]
  · intro c rs t hflag hrules
    simp only [addC2CLoggingM, hflag, if_pos, hrules]
    have h1 : (rs ++ [t]).dropLast = rs := by simp
    have h2 : (rs ++ [t]).drop ((rs ++ [t]).length - 1) = [t] := by
      simp
    rw [h1, h2]

theorem c6_witness :
    goodBody (⟨"filter", "", "netout--handle--rl-log",
      [GRule.jump "netout--handle--rl-log"],
      [GRule.netOutConnRateLimitRejectLog "handle" 2,
       GRule.netOutDefaultReject]⟩ : IpTablesFullChain).Rules = true ∧
    (addASGLoggingM mEx6
      ⟨"filter", "FORWARD", "netout--handle", [], [GRule.netOutDefaultReject]⟩).Rules =
      [] ++ [GRule.netOutDefaultRejectLog "handle" 2] ++ [GRule.netOutDefaultReject] :=
  ⟨(c6_terminal_rule_amended mEx6 preEx postEx).1 argsEx6 (by decide) rfl _ (by decide),
   (c6_terminal_rule_amended mEx6 preEx postEx).2.1
     ⟨"filter", "FORWARD", "netout--handle", [], [GRule.netOutDefaultReject]⟩
     [] GRule.netOutDefaultReject rfl rfl⟩

theorem c6_counterexample :
    defaultNetOutRulesM mDry preEx postEx = Except.ok argsDry ∧
    (⟨"filter", "", "netout--handle--rl-log",
      [GRule.jump "netout--handle--rl-log"], []⟩ : IpTablesFullChain) ∈ argsDry ∧
    goodBody (⟨"filter", "", "netout--handle--rl-log",
      [GRule.jump "netout--handle--rl-log"], []⟩ : IpTablesFullChain).Rules = false := by
  refine ⟨by decide, by decide, rfl⟩

/-- C9: whenever the two chain-name lookups succeed, `BulkInsertRules` issues
exactly one adapter call: a bulk insert at position 1 of the filter-table
net-out chain, whose batch is — in order — the converted caller rules, the
deny-network reject rules, one rate-limit rule if rate limiting is enabled
(jump target `REJECT`, or the rate-limit log chain when rate-limit logging is
on, per `htarget`), and the two fixed trailer rules. -/
theorem c9_bulk_insert_order {γ : Type} (m : NetOutM) (pre : String → String → String)
    (post : String → String → Except String String)
    (conv : List γ → String → Bool → List GRule) (netOutRules : List γ)
    (logChain target : String)
    (hlog : post (pre pfxNetOut m.ContainerHandle) sfxNetOutLog = Except.ok logChain)
    (htarget : (if m.Conn.Logging then
        post (pre pfxNetOut m.ContainerHandle) sfxNetOutRateLimitLog
      else Except.ok "REJECT") = Except.ok target) :
    bulkInsertRulesM m pre post conv netOutRules =
      Except.ok [AdapterOp.bulkInsert "filter" (pre pfxNetOut m.ContainerHandle) 1
        (conv netOutRules logChain m.ASGLogging ++ denyNetworksRulesM m ++
         (if m.Conn.Limit then
           [GRule.netOutConnRateLimit (toString m.Conn.RatePerSec ++ "/sec")
             (toString m.Conn.Burst) m.ContainerHandle
             (rateLimitExpiryPeriodM m.Conn.Burst m.Conn.RatePerSec) target]
          else []) ++
         [GRule.raw ["-p", "tcp", "-m", "state", "--state", "INVALID", "-j", "DROP"],
          GRule.raw ["-m", "state", "--state", "RELATED,ESTABLISHED", "-j", "ACCEPT"]])] := by
  simp only [bulkInsertRulesM, rateLimitRuleM]
  rw [hlog]
  cases hlim : m.Conn.Limit with
  | false =>
      simp only [hlim, Bool.false_eq_true, if_false, List.append_nil,
        List.append_assoc]
  | true =>
      rw [htarget]
      simp only [hlim, if_true, List.append_assoc, List.singleton_append,
        List.cons_append, List.nil_append]

theorem c9_witness :
    bulkInsertRulesM mEx9 preEx postEx convEx [7] =
      Except.ok [AdapterOp.bulkInsert "filter" "netout--handle" 1
        ([GRule.raw ["netout--handle--log", "7"]] ++
         [GRule.inputReject "10.0.0.0/8", GRule.inputReject "10.1.0.0/16"] ++
         [GRule.netOutConnRateLimit "10/sec" "100" "handle"
           (rateLimitExpiryPeriodM 100 10) "netout--handle--rl-log"] ++
         [GRule.raw ["-p", "tcp", "-m", "state", "--state", "INVALID", "-j", "DROP"],
          GRule.raw ["-m", "state", "--state", "RELATED,ESTABLISHED", "-j", "ACCEPT"]])] :=
  c9_bulk_insert_order mEx9 preEx postEx convEx [7] "netout--handle--log"
    "netout--handle--rl-log" (by decide) (by decide)
